import Mathlib

/-!
# Shallow embedding of `yaml-eslint-parser`'s `src/convert.ts`

This file embeds the conversion engine of the repository (the function
`convertRoot` and its helpers in `src/convert.ts`) as executable Lean
definitions and proves properties about them.

Modelling conventions:
* JS strings are modelled as `List Char`; `String.prototype.slice(a, b)`
  with non-negative arguments is `strSlice` (clamping semantics).
* JS whitespace (the class `\s` used by `replace(/\S/gu, " ")` and the
  truthiness of `c.trim()`) is modelled by `isWS`, covering the ASCII
  whitespace characters that can occur in the scanned text.
* The external `yaml` package (`yaml.parse` and
  `yaml.parseDocument(...).toJSON()`) is out of scope per the spec; it is
  an opaque parameter (`Ctx`).  Its JSON-compatible results are modelled
  by `JSValue` (JavaScript primitive values, with `num`/`inf`/`nan`
  distinguishing finite numbers from the non-finite ones and `isFalsy`
  modelling JS truthiness).
* Mutable state is made explicit: the shared token buffer becomes lists
  of emitted tokens returned by each converter (concatenated in emission
  order), and the per-document `doc.anchors` registry becomes the fold of
  the list of anchor registration events (the registry is never read
  during the walk in the source, only written).
* Node `parent` back-references (cyclic in JS) are modelled by
  `ParentRef`, a descriptor (node kind and range) of the object that the
  source passes as the `parent` argument.
* Offsets are `Nat` with truncated subtraction; the marker-token ranges
  `[end-3, end]` computed by the source therefore clamp at 0 where the
  JS source would produce a negative offset (only reachable for ranges
  of length < 3).
-/

namespace YamlEslint

/-- JS whitespace (`\s`), restricted to the ASCII range: the characters
`replace(/\S/gu, " ")` leaves unchanged and for which `c.trim()` is empty. -/
def isWS (c : Char) : Bool :=
  c = ' ' || c = '\t' || c = '\n' || c = '\r' || c = '\x0b' || c = '\x0c'

/-- `text.slice(a, b)` for a JS string with `0 ≤ a, b` (clamping, empty
when `b ≤ a`). -/
def strSlice (s : List Char) (a b : Nat) : List Char :=
  (s.drop a).take (b - a)

/-- One step of the comment/token blanking `reduce`:
`text.slice(0, r.1) + text.slice(r.1, r.2).replace(/\S/gu, " ") + text.slice(r.2)`. -/
def blankChar (c : Char) : Char := if isWS c then c else ' '

def blankRange (text : List Char) (r : Nat × Nat) : List Char :=
  strSlice text 0 r.1 ++ (strSlice text r.1 r.2).map blankChar ++ text.drop r.2

/-- The full blanking `reduce` over a list of ranges. -/
def blankRanges (text : List Char) (rs : List (Nat × Nat)) : List Char :=
  rs.foldl blankRange text

/-- `[r.1, r.2)` contains offset `i`. -/
def covers (r : Nat × Nat) (i : Nat) : Prop := r.1 ≤ i ∧ i < r.2

instance coversDecidable (r : Nat × Nat) (i : Nat) : Decidable (covers r i) :=
  instDecidableAnd

/-- Two half-open ranges do not intersect. -/
def rangesDisjoint (r s : Nat × Nat) : Prop := r.2 ≤ s.1 ∨ s.2 ≤ r.1

instance rangesDisjointDecidable (r s : Nat × Nat) : Decidable (rangesDisjoint r s) :=
  instDecidableOr

/-! ## Locations (§3 of the spec)

The upstream engine reports 1-based lines and 1-based columns; the
converter (`getConvertLocation`) keeps the line and subtracts one from
the column. -/

structure Pos where
  line : Nat
  column : Nat
deriving DecidableEq, Repr

structure SrcSpan where
  start : Pos
  endPos : Pos
deriving DecidableEq, Repr

structure Locations where
  range : Nat × Nat
  loc : SrcSpan
deriving DecidableEq, Repr

/-- A point of the upstream engine's `position`: 1-based line, 1-based
column, 0-based character offset. -/
structure UPoint where
  line : Nat
  column : Nat
  offset : Nat
deriving DecidableEq, Repr

structure UPos where
  start : UPoint
  endPos : UPoint
deriving DecidableEq, Repr

/-- `getConvertLocation` of the source: `range = [start.offset, end.offset]`,
`loc` with the 1-based line kept and the column decremented. -/
def getConvertLocation (pos : UPos) : Locations :=
  { range := (pos.start.offset, pos.endPos.offset)
    loc := { start := ⟨pos.start.line, pos.start.column - 1⟩
             endPos := ⟨pos.endPos.line, pos.endPos.column - 1⟩ } }

/-! ## Tokens -/

inductive TokenType where
  | Marker | Directive | Boolean | Numeric | Null | Identifier
  | String | BlockLiteral | BlockFolded | Punctuator
deriving DecidableEq, Repr

structure Token where
  type : TokenType
  value : List Char
  range : Nat × Nat
  loc : SrcSpan
deriving DecidableEq, Repr

/-- `addToken` of the source: the token's `value` is the slice of the
code it is given (during the walk this is the comment-blanked code). -/
def addToken (type : TokenType) (l : Locations) (code : List Char) : Token :=
  ⟨type, strSlice code l.range.1 l.range.2, l.range, l.loc⟩

/-- A comment; its `type` field is the constant `"Block"` in the source. -/
structure Comment where
  value : String
  range : Nat × Nat
  loc : SrcSpan
deriving DecidableEq, Repr

/-! ## JavaScript values (results of the opaque `yaml` parser, scalar
values, and the `||` fallback) -/

inductive JSValue where
  | null
  | undef
  | bool (b : Bool)
  | num (q : ℚ)
  | inf (positive : Bool)
  | nan
  | str (s : String)
deriving DecidableEq, Repr

/-- JS falsiness: `undefined`, `null`, `false`, `±0`, `NaN` and `""`. -/
def JSValue.isFalsy : JSValue → Bool
  | .null => true
  | .undef => true
  | .bool b => !b
  | .num q => q = 0
  | .inf _ => false
  | .nan => true
  | .str s => s = ""

/-- `a || b` where `b` is the raw string (`yaml.parse(strValue) || strValue`). -/
def jsOr (v : JSValue) (s : String) : JSValue :=
  if v.isFalsy then .str s else v

def jsTypeof : JSValue → String
  | .null => "object"
  | .undef => "undefined"
  | .bool _ => "boolean"
  | .num _ => "number"
  | .inf _ => "number"
  | .nan => "number"
  | .str _ => "string"

/-- `isFinite(Number(v))` for the values on which the source evaluates it
(the check is short-circuited behind `typeof === "number"`, so only
`num`/`inf`/`nan` are ever consulted). -/
def jsIsFiniteNumber : JSValue → Bool
  | .num _ => true
  | .inf _ => false
  | .nan => false
  | _ => true

/-- The token-type classification of a plain scalar in `convertPlain`:
`Boolean` / `Numeric` (finite numbers only) / `Null` / `Identifier`. -/
def classifyToken (v : JSValue) : TokenType :=
  if jsTypeof v = "boolean" then .Boolean
  else if jsTypeof v = "number" && jsIsFiniteNumber v then .Numeric
  else if v = JSValue.null then .Null
  else .Identifier

/-! ## Scalar literal tests (`isTrue` / `isFalse` / `isNull` and the
regexes of `needParse`) -/

def isTrue (str : String) : Bool :=
  str = "true" || str = "True" || str = "TRUE"

def isFalse (str : String) : Bool :=
  str = "false" || str = "False" || str = "FALSE"

def isNull (str : String) : Bool :=
  str = "null" || str = "Null" || str = "NULL" || str = "~"

/-- Strip one optional leading sign (`[-+]?`). -/
def stripSign : List Char → List Char
  | '+' :: cs => cs
  | '-' :: cs => cs
  | cs => cs

/-- `/^0o([0-7]+)$/u` -/
def matchOct : List Char → Bool
  | '0' :: 'o' :: ds => !ds.isEmpty && ds.all fun c => '0' ≤ c && c ≤ '7'
  | _ => false

/-- `/^[-+]?[0-9]+$/u` -/
def matchInt (cs : List Char) : Bool :=
  let ds := stripSign cs
  !ds.isEmpty && ds.all Char.isDigit

def isHexDigitChar (c : Char) : Bool :=
  c.isDigit || ('a' ≤ c && c ≤ 'f') || ('A' ≤ c && c ≤ 'F')

/-- `/^0x([0-9a-fA-F]+)$/u` -/
def matchHex : List Char → Bool
  | '0' :: 'x' :: ds => !ds.isEmpty && ds.all isHexDigitChar
  | _ => false

/-- `/^(?:[-+]?\.inf|(\.nan))$/iu` — note the optional sign applies to
`.inf` only. -/
def matchSpecialFloat (cs : List Char) : Bool :=
  let l := cs.map Char.toLower
  stripSign l = ['.', 'i', 'n', 'f'] || l = ['.', 'n', 'a', 'n']

/-- The mantissa alternatives `\.[0-9]+|[0-9]+(?:\.[0-9]*)?` of the
exponential-float regex. -/
def matchExpMantissa (m : List Char) : Bool :=
  match m with
  | '.' :: ds => !ds.isEmpty && ds.all Char.isDigit
  | _ =>
    let sp := m.span Char.isDigit
    !sp.1.isEmpty &&
      (match sp.2 with
       | [] => true
       | '.' :: d2 => d2.all Char.isDigit
       | _ => false)

/-- `/^[-+]?(?:\.[0-9]+|[0-9]+(?:\.[0-9]*)?)[eE][-+]?[0-9]+$/u` -/
def matchExpFloat (cs : List Char) : Bool :=
  let b := stripSign cs
  let sp := b.span fun c => c.isDigit || c = '.'
  match sp.2 with
  | 'e' :: rest => matchExpMantissa sp.1 && (let ds := stripSign rest; !ds.isEmpty && ds.all Char.isDigit)
  | 'E' :: rest => matchExpMantissa sp.1 && (let ds := stripSign rest; !ds.isEmpty && ds.all Char.isDigit)
  | _ => false

/-- `/^[-+]?(?:\.([0-9]+)|[0-9]+\.([0-9]*))$/u` -/
def matchFixedFloat (cs : List Char) : Bool :=
  let b := stripSign cs
  match b with
  | '.' :: ds => !ds.isEmpty && ds.all Char.isDigit
  | _ =>
    let sp := b.span Char.isDigit
    !sp.1.isEmpty &&
      (match sp.2 with
       | '.' :: d2 => d2.all Char.isDigit
       | _ => false)

/-- `needParse` of `convertPlain`: the six numeric forms, tested in the
source's order (oct, int, hex, special float, exponential, fixed point). -/
def needParse (str : String) : Bool :=
  matchOct str.data || matchInt str.data || matchHex str.data ||
    matchSpecialFloat str.data || matchExpFloat str.data || matchFixedFloat str.data

/-! ## The opaque external `yaml` parser (spec §6: delegation boundary) -/

/-- The two entry points of the external `yaml` package used by the
converter, treated as opaque functions per the spec: `parse` is
`yaml.parse(text)`; `parseDoc` is `yaml.parseDocument(text).toJSON()`
applied to the synthetic one-line document built in `getTaggedValue`. -/
structure Ctx where
  parse : String → JSValue
  parseDoc : List Char → JSValue

/-! ## The upstream `yaml-unist-parser` tree -/

/-- An upstream node carrying only a position and a string value
(anchors, tags, aliases' names, comments). -/
structure UNamed where
  pos : UPos
  value : String
deriving DecidableEq, Repr

/-- An upstream content node.  Mapping items are `(position, key, value)`
triples (the key/value wrappers of the upstream tree expose at most one
child content node, which is all the converter reads of them); block
sequence items expose at most one child content node; flow-sequence
children are either `flowSequenceItem`s (`Sum.inl`) or `flowMappingItem`s
(`Sum.inr`).  `other` stands for a node whose `type` tag is outside the
converter's dispatch table. -/
inductive UContent where
  | mapping (pos : UPos) (anchor tag : Option UNamed)
      (items : List (UPos × Option UContent × Option UContent))
  | flowMapping (pos : UPos) (anchor tag : Option UNamed)
      (items : List (UPos × Option UContent × Option UContent))
  | sequence (pos : UPos) (anchor tag : Option UNamed)
      (items : List (Option UContent))
  | flowSequence (pos : UPos) (anchor tag : Option UNamed)
      (items : List (Option UContent ⊕ UPos × Option UContent × Option UContent))
  | plain (pos : UPos) (anchor tag : Option UNamed) (value : String)
  | quoteDouble (pos : UPos) (anchor tag : Option UNamed) (value : String)
  | quoteSingle (pos : UPos) (anchor tag : Option UNamed) (value : String)
  | blockLiteral (pos : UPos) (anchor tag : Option UNamed)
      (chomping : String) (indent : Option Nat) (value : String)
  | blockFolded (pos : UPos) (anchor tag : Option UNamed)
      (chomping : String) (indent : Option Nat) (value : String)
  | alias (pos : UPos) (anchor tag : Option UNamed) (value : String)
  | other (pos : UPos) (kind : String)

/-- An upstream `documentHead`: its position and its directive children
(the converter reads only each directive's position, slicing its text
from the code). -/
structure UHead where
  pos : UPos
  directives : List UPos
deriving DecidableEq, Repr

/-- An upstream `document`: `children[0]` is the head, `children[1]` the
body, of which the converter reads only the optional content child. -/
structure UDocument where
  pos : UPos
  head : UHead
  body : Option UContent

/-- The upstream root: documents and the comment list. -/
structure URoot where
  pos : UPos
  comments : List UNamed
  docs : List UDocument

/-! ## The output AST

`parent` back-references are modelled by `ParentRef`, a descriptor of the
node object that the source passes as the `parent` argument. -/

structure ParentRef where
  kind : String
  range : Nat × Nat
deriving DecidableEq, Repr

structure YAnchor where
  name : String
  parent : ParentRef
  range : Nat × Nat
  loc : SrcSpan
deriving DecidableEq, Repr

structure YTag where
  tag : String
  parent : ParentRef
  range : Nat × Nat
  loc : SrcSpan
deriving DecidableEq, Repr

structure YDirective where
  value : List Char
  parent : ParentRef
  range : Nat × Nat
  loc : SrcSpan
deriving DecidableEq, Repr

/-- An output content node (`YAMLContent` plus `YAMLPair`; the `pair`
constructor corresponds to `YAMLPair`, which in the source's typing can
never appear among a sequence's `entries`). -/
inductive YContent where
  | mapping (style : String) (pairs : List YContent) (anchor : Option YAnchor)
      (tag : Option YTag) (parent : ParentRef) (range : Nat × Nat) (loc : SrcSpan)
  | sequence (style : String) (entries : List YContent) (anchor : Option YAnchor)
      (tag : Option YTag) (parent : ParentRef) (range : Nat × Nat) (loc : SrcSpan)
  | pair (key value : Option YContent) (parent : ParentRef) (range : Nat × Nat) (loc : SrcSpan)
  | plainScalar (strValue : String) (value : JSValue) (anchor : Option YAnchor)
      (tag : Option YTag) (parent : ParentRef) (range : Nat × Nat) (loc : SrcSpan)
  | quotedScalar (double : Bool) (strValue : String) (value : JSValue) (anchor : Option YAnchor)
      (tag : Option YTag) (parent : ParentRef) (range : Nat × Nat) (loc : SrcSpan)
  | blockScalar (folded : Bool) (chomping : String) (indent : Option Nat) (value : String)
      (anchor : Option YAnchor) (tag : Option YTag) (parent : ParentRef)
      (range : Nat × Nat) (loc : SrcSpan)
  | alias (name : String) (anchor : Option YAnchor) (tag : Option YTag)
      (parent : ParentRef) (range : Nat × Nat) (loc : SrcSpan)

/-- The `parent` back-reference stored in a node. -/
def YContent.parentOf : YContent → ParentRef
  | .mapping _ _ _ _ p _ _ => p
  | .sequence _ _ _ _ p _ _ => p
  | .pair _ _ p _ _ => p
  | .plainScalar _ _ _ _ p _ _ => p
  | .quotedScalar _ _ _ _ _ p _ _ => p
  | .blockScalar _ _ _ _ _ _ p _ _ => p
  | .alias _ _ _ p _ _ => p

def YContent.isPair : YContent → Bool
  | .pair _ _ _ _ _ => true
  | _ => false

/-- The lazily-resolved `value` of a plain or quoted scalar. -/
def YContent.scalarValue : YContent → Option JSValue
  | .plainScalar _ v _ _ _ _ _ => some v
  | .quotedScalar _ _ v _ _ _ _ _ => some v
  | _ => none

def YContent.styleOf : YContent → Option String
  | .mapping s _ _ _ _ _ _ => some s
  | .sequence s _ _ _ _ _ _ => some s
  | _ => none

def YContent.mappingPairs : YContent → Option (List YContent)
  | .mapping _ ps _ _ _ _ _ => some ps
  | _ => none

def YContent.entriesOf : YContent → Option (List YContent)
  | .sequence _ es _ _ _ _ _ => some es
  | _ => none

def YContent.pairValue : YContent → Option YContent
  | .pair _ (some v) _ _ _ => some v
  | _ => none

/-- The per-document anchor registry (a JS object keyed by anchor name):
setting an existing key overwrites it in place, a new key is appended. -/
def anchorSet (m : List (String × YAnchor)) (k : String) (v : YAnchor) :
    List (String × YAnchor) :=
  if m.any fun p => p.1 = k then
    m.map fun p => if p.1 = k then (k, v) else p
  else m ++ [(k, v)]

def anchorGet (m : List (String × YAnchor)) (k : String) : Option YAnchor :=
  (m.find? fun p => p.1 = k).map fun p => p.2

structure YDocument where
  directives : List YDirective
  content : Option YContent
  anchors : List (String × YAnchor)
  range : Nat × Nat
  loc : SrcSpan

structure YProgram where
  body : List YDocument
  comments : List Comment
  tokens : List Token
  range : Nat × Nat
  loc : SrcSpan

/-! ## Anchor / tag / alias conversion (spec §4.3) -/

/-- `convertAnchor`: builds the anchor node, registers it (the returned
event list), and emits the `&` sigil + name tokens (or, defensively, a
single whole-range `Identifier` when the text does not start with `&`). -/
def convertAnchor (code : List Char) (node : UNamed) (parent : ParentRef) :
    YAnchor × List Token × List (String × YAnchor) :=
  let loc := getConvertLocation node.pos
  let ast : YAnchor := ⟨node.value, parent, loc.range, loc.loc⟩
  let text := strSlice code loc.range.1 loc.range.2
  let toks :=
    match text with
    | '&' :: _ =>
      let punctuatorLoc : Locations :=
        ⟨(loc.range.1, loc.range.1 + 1),
         ⟨loc.loc.start, ⟨loc.loc.start.line, loc.loc.start.column + 1⟩⟩⟩
      [addToken .Punctuator punctuatorLoc code,
       addToken .Identifier
         ⟨(loc.range.1 + 1, loc.range.2),
          ⟨⟨loc.loc.start.line, loc.loc.start.column + 1⟩, loc.loc.endPos⟩⟩ code]
    | _ => [addToken .Identifier loc code]
  (ast, toks, [(node.value, ast)])

/-- `convertTag`: the `!` sigil spans 2 characters for the `!!` shorthand
and 1 otherwise. -/
def convertTag (code : List Char) (node : UNamed) (parent : ParentRef) :
    YTag × List Token :=
  let loc := getConvertLocation node.pos
  let ast : YTag := ⟨node.value, parent, loc.range, loc.loc⟩
  let text := strSlice code loc.range.1 loc.range.2
  let toks :=
    match text with
    | '!' :: rest =>
      let offset : Nat := match rest with | '!' :: _ => 2 | _ => 1
      let punctuatorLoc : Locations :=
        ⟨(loc.range.1, loc.range.1 + offset),
         ⟨loc.loc.start, ⟨loc.loc.start.line, loc.loc.start.column + offset⟩⟩⟩
      [addToken .Punctuator punctuatorLoc code,
       addToken .Identifier
         ⟨(loc.range.1 + offset, loc.range.2),
          ⟨⟨loc.loc.start.line, loc.loc.start.column + offset⟩, loc.loc.endPos⟩⟩ code]
    | _ => [addToken .Identifier loc code]
  (ast, toks)

/-- `convertAnchorAndTag`: the anchor sub-node is converted first, then
the tag sub-node. -/
def convertAnchorAndTag (code : List Char) (anchor tag : Option UNamed)
    (parent : ParentRef) :
    Option YAnchor × Option YTag × List Token × List (String × YAnchor) :=
  let ares :=
    match anchor with
    | some a => let r := convertAnchor code a parent; (some r.1, r.2.1, r.2.2)
    | none => (none, [], [])
  let tres :=
    match tag with
    | some t => let r := convertTag code t parent; (some r.1, r.2)
    | none => (none, [])
  (ares.1, tres.1, ares.2.1 ++ tres.2, ares.2.2)

/-! ## Scalar value resolution (spec §4.2) -/

/-- `/^(?:[1-9]\d*|0)$/u`, the guard of the `int` tag override. -/
def intTagShape (str : String) : Bool :=
  match str.data with
  | ['0'] => true
  | c :: ds => ('1' ≤ c && c ≤ '9') && ds.all Char.isDigit
  | [] => false

/-- `parseInt(str, 10)` for a string matching `intTagShape`. -/
def digitsToNat (cs : List Char) : Nat :=
  cs.foldl (fun n c => n * 10 + (c.toNat - '0'.toNat)) 0

/-- `getTaggedValue`: the core-schema tag overrides; an unmatched core
tag or any other tag falls through to the external parser applied to the
synthetic one-line document `"<tagText> <text>"`. -/
def getTaggedValue (ctx : Ctx) (tagValue : String) (text : List Char) (str : String) :
    JSValue :=
  if tagValue = "tag:yaml.org,2002:str" then .str str
  else if tagValue = "tag:yaml.org,2002:int" && intTagShape str then
    .num (digitsToNat str.data)
  else if tagValue = "tag:yaml.org,2002:bool" && isTrue str then .bool true
  else if tagValue = "tag:yaml.org,2002:bool" && isFalse str then .bool false
  else if tagValue = "tag:yaml.org,2002:null" && (isNull str || str = "") then .null
  else
    ctx.parseDoc
      ((if tagValue.startsWith "!" then tagValue
        else "!<" ++ tagValue ++ ">").data ++ ' ' :: text)

/-- The `tokenValue` computed by `convertPlain` before any tag override:
literal boolean/null forms, then the numeric forms with
`yaml.parse(strValue) || strValue`, else the raw string. -/
def plainTokenValue (ctx : Ctx) (strValue : String) : JSValue :=
  if isTrue strValue then .bool true
  else if isFalse strValue then .bool false
  else if isNull strValue then .null
  else if needParse strValue then jsOr (ctx.parse strValue) strValue
  else .str strValue

/-- `convertPlain`.  The node's lazily-memoized `value` getter is modelled
by its (unique) result: the tag override when a tag sub-node is present,
the pre-tag `tokenValue` otherwise.  The primary token's type is always
classified from the pre-tag `tokenValue`. -/
def convertPlain (ctx : Ctx) (code : List Char) (pos : UPos)
    (anchor tag : Option UNamed) (strValue : String) (parent : ParentRef) :
    YContent × List Token × List (String × YAnchor) :=
  let loc := getConvertLocation pos
  let tokenValue := plainTokenValue ctx strValue
  let value : JSValue :=
    match tag with
    | some t => getTaggedValue ctx t.value strValue.data strValue
    | none => tokenValue
  let selfRef : ParentRef := ⟨"YAMLScalar", loc.range⟩
  let at_ := convertAnchorAndTag code anchor tag selfRef
  let ast := YContent.plainScalar strValue value at_.1 at_.2.1 parent loc.range loc.loc
  (ast, at_.2.2.1 ++ [addToken (classifyToken tokenValue) loc code], at_.2.2.2)

/-- `convertQuoteDouble`: an untagged double-quoted scalar's value is its
already-escape-decoded string content; a tag override re-runs resolution
with the raw source slice of the node. -/
def convertQuoteDouble (ctx : Ctx) (code : List Char) (pos : UPos)
    (anchor tag : Option UNamed) (strValue : String) (parent : ParentRef) :
    YContent × List Token × List (String × YAnchor) :=
  let loc := getConvertLocation pos
  let value : JSValue :=
    match tag with
    | some t => getTaggedValue ctx t.value (strSlice code loc.range.1 loc.range.2) strValue
    | none => .str strValue
  let selfRef : ParentRef := ⟨"YAMLScalar", loc.range⟩
  let at_ := convertAnchorAndTag code anchor tag selfRef
  let ast := YContent.quotedScalar true strValue value at_.1 at_.2.1 parent loc.range loc.loc
  (ast, at_.2.2.1 ++ [addToken .String loc code], at_.2.2.2)

/-- `convertQuoteSingle` (identical to the double-quoted case but for the
style recorded on the node). -/
def convertQuoteSingle (ctx : Ctx) (code : List Char) (pos : UPos)
    (anchor tag : Option UNamed) (strValue : String) (parent : ParentRef) :
    YContent × List Token × List (String × YAnchor) :=
  let loc := getConvertLocation pos
  let value : JSValue :=
    match tag with
    | some t => getTaggedValue ctx t.value (strSlice code loc.range.1 loc.range.2) strValue
    | none => .str strValue
  let selfRef : ParentRef := ⟨"YAMLScalar", loc.range⟩
  let at_ := convertAnchorAndTag code anchor tag selfRef
  let ast := YContent.quotedScalar false strValue value at_.1 at_.2.1 parent loc.range loc.loc
  (ast, at_.2.2.1 ++ [addToken .String loc code], at_.2.2.2)

/-- The first header scan of `convertBlockLiteral`/`convertBlockFolded`:
advance over the non-whitespace header characters after the `|`/`>`,
tracking line and column.  Called on the suffix of the node's text at the
current index.  (The inner newline branch of the source is unreachable —
`"\n".trim()` is empty — but is kept for fidelity.) -/
def blockHeadScan : List Char → Nat → Nat → Nat → Nat × Nat × Nat
  | [], index, line, column => (index, line, column)
  | c :: rest, index, line, column =>
    if !(isWS c) then
      let column := column + 1
      if c = '\n' then (index, line + 1, 0)
      else blockHeadScan rest (index + 1) line column
    else (index, line, column)

/-- The second scan: skip the whitespace between the header and the block
scalar body, tracking line and column. -/
def blockBodyScan : List Char → Nat → Nat → Nat → Nat × Nat × Nat
  | [], index, line, column => (index, line, column)
  | c :: rest, index, line, column =>
    if isWS c then
      if c = '\n' then blockBodyScan rest (index + 1) (line + 1) 0
      else blockBodyScan rest (index + 1) line (column + 1)
    else (index, line, column)

/-- `convertBlockLiteral` / `convertBlockFolded`, parameterized by the
`folded` flag (the two source functions differ only in the sigil, the
node style and the body token type). -/
def convertBlockScalar (folded : Bool) (code : List Char) (pos : UPos)
    (anchor tag : Option UNamed) (chomping : String) (indent : Option Nat)
    (strValue : String) (parent : ParentRef) :
    YContent × List Token × List (String × YAnchor) :=
  let loc := getConvertLocation pos
  let selfRef : ParentRef := ⟨"YAMLScalar", loc.range⟩
  let at_ := convertAnchorAndTag code anchor tag selfRef
  let ast := YContent.blockScalar folded chomping indent strValue at_.1 at_.2.1 parent
    loc.range loc.loc
  let text := strSlice code loc.range.1 loc.range.2
  let bodyType : TokenType := if folded then .BlockFolded else .BlockLiteral
  let sigil : Char := if folded then '>' else '|'
  let toks :=
    match text with
    | c :: restText =>
      if c = sigil then
        let s1 := blockHeadScan restText 1 loc.loc.start.line (loc.loc.start.column + 1)
        let punctuatorLoc : Locations :=
          ⟨(loc.range.1, loc.range.1 + s1.1), ⟨loc.loc.start, ⟨s1.2.1, s1.2.2⟩⟩⟩
        let s2 := blockBodyScan (text.drop s1.1) s1.1 s1.2.1 s1.2.2
        let tokenLoc : Locations :=
          ⟨(loc.range.1 + s2.1, loc.range.2), ⟨⟨s2.2.1, s2.2.2⟩, loc.loc.endPos⟩⟩
        [addToken .Punctuator punctuatorLoc code, addToken bodyType tokenLoc code]
      else [addToken bodyType loc code]
    | [] => [addToken bodyType loc code]
  (ast, at_.2.2.1 ++ toks, at_.2.2.2)

/-- `convertAlias`: the `*` sigil + name tokens (or, defensively, a
single whole-range `Identifier`). -/
def convertAlias (code : List Char) (pos : UPos) (anchor tag : Option UNamed)
    (value : String) (parent : ParentRef) :
    YContent × List Token × List (String × YAnchor) :=
  let loc := getConvertLocation pos
  let selfRef : ParentRef := ⟨"YAMLAlias", loc.range⟩
  let at_ := convertAnchorAndTag code anchor tag selfRef
  let ast := YContent.alias value at_.1 at_.2.1 parent loc.range loc.loc
  let text := strSlice code loc.range.1 loc.range.2
  let toks :=
    match text with
    | '*' :: _ =>
      let punctuatorLoc : Locations :=
        ⟨(loc.range.1, loc.range.1 + 1),
         ⟨loc.loc.start, ⟨loc.loc.start.line, loc.loc.start.column + 1⟩⟩⟩
      [addToken .Punctuator punctuatorLoc code,
       addToken .Identifier
         ⟨(loc.range.1 + 1, loc.range.2),
          ⟨⟨loc.loc.start.line, loc.loc.start.column + 1⟩, loc.loc.endPos⟩⟩ code]
    | _ => [addToken .Identifier loc code]
  (ast, at_.2.2.1 ++ toks, at_.2.2.2)

/-! ## The tree walker (spec §4.1) -/

mutual

/-- `convertContentNode`: dispatch on the upstream node kind; a kind
outside the dispatch table raises `Unsupported node` (spec §7). -/
def convertContentNode (ctx : Ctx) (code : List Char) (node : UContent)
    (parent : ParentRef) :
    Except String (YContent × List Token × List (String × YAnchor)) :=
  match node with
  | .mapping pos anchor tag items =>
    let loc := getConvertLocation pos
    let selfRef : ParentRef := ⟨"YAMLMapping", loc.range⟩
    match convertPairs ctx code items selfRef with
    | .error e => .error e
    | .ok (pairs, toks, evs) =>
      let at_ := convertAnchorAndTag code anchor tag selfRef
      .ok (.mapping "block" pairs at_.1 at_.2.1 parent loc.range loc.loc,
           toks ++ at_.2.2.1, evs ++ at_.2.2.2)
  | .flowMapping pos anchor tag items =>
    let loc := getConvertLocation pos
    let selfRef : ParentRef := ⟨"YAMLMapping", loc.range⟩
    match convertPairs ctx code items selfRef with
    | .error e => .error e
    | .ok (pairs, toks, evs) =>
      let at_ := convertAnchorAndTag code anchor tag selfRef
      .ok (.mapping "flow" pairs at_.1 at_.2.1 parent loc.range loc.loc,
           toks ++ at_.2.2.1, evs ++ at_.2.2.2)
  | .sequence pos anchor tag items =>
    let loc := getConvertLocation pos
    let selfRef : ParentRef := ⟨"YAMLSequence", loc.range⟩
    match convertSeqItems ctx code items selfRef with
    | .error e => .error e
    | .ok (entries, toks, evs) =>
      let at_ := convertAnchorAndTag code anchor tag selfRef
      .ok (.sequence "block" entries at_.1 at_.2.1 parent loc.range loc.loc,
           toks ++ at_.2.2.1, evs ++ at_.2.2.2)
  | .flowSequence pos anchor tag items =>
    let loc := getConvertLocation pos
    let selfRef : ParentRef := ⟨"YAMLSequence", loc.range⟩
    match convertFlowEntries ctx code items parent selfRef with
    | .error e => .error e
    | .ok (entries, toks, evs) =>
      let at_ := convertAnchorAndTag code anchor tag selfRef
      .ok (.sequence "flow" entries at_.1 at_.2.1 parent loc.range loc.loc,
           toks ++ at_.2.2.1, evs ++ at_.2.2.2)
  | .plain pos anchor tag value =>
    .ok (convertPlain ctx code pos anchor tag value parent)
  | .quoteDouble pos anchor tag value =>
    .ok (convertQuoteDouble ctx code pos anchor tag value parent)
  | .quoteSingle pos anchor tag value =>
    .ok (convertQuoteSingle ctx code pos anchor tag value parent)
  | .blockLiteral pos anchor tag chomping indent value =>
    .ok (convertBlockScalar false code pos anchor tag chomping indent value parent)
  | .blockFolded pos anchor tag chomping indent value =>
    .ok (convertBlockScalar true code pos anchor tag chomping indent value parent)
  | .alias pos anchor tag value =>
    .ok (convertAlias code pos anchor tag value parent)
  | .other _ kind => .error ("Unsupported node: " ++ kind)

/-- The mapping-item loop of `convertMapping`/`convertFlowMapping`. -/
def convertPairs (ctx : Ctx) (code : List Char)
    (items : List (UPos × Option UContent × Option UContent)) (parent : ParentRef) :
    Except String (List YContent × List Token × List (String × YAnchor)) :=
  match items with
  | [] => .ok ([], [], [])
  | item :: rest =>
    match convertMappingItem ctx code item parent with
    | .error e => .error e
    | .ok (p, t1, e1) =>
      match convertPairs ctx code rest parent with
      | .error e => .error e
      | .ok (ps, t2, e2) => .ok (p :: ps, t1 ++ t2, e1 ++ e2)

/-- `convertMappingItem`: builds the `YAMLPair` and converts the key and
value children (each optional) with the pair as parent. -/
def convertMappingItem (ctx : Ctx) (code : List Char)
    (item : UPos × Option UContent × Option UContent) (parent : ParentRef) :
    Except String (YContent × List Token × List (String × YAnchor)) :=
  match item with
  | (pos, key, val) =>
    let loc := getConvertLocation pos
    let pairRef : ParentRef := ⟨"YAMLPair", loc.range⟩
    match convertOptContent ctx code key pairRef with
    | .error e => .error e
    | .ok (k, t1, e1) =>
      match convertOptContent ctx code val pairRef with
      | .error e => .error e
      | .ok (v, t2, e2) =>
        .ok (.pair k v parent loc.range loc.loc, t1 ++ t2, e1 ++ e2)

/-- `convertMappingKey` / `convertMappingValue` / `convertDocumentBody`:
convert the optional single content child. -/
def convertOptContent (ctx : Ctx) (code : List Char) (c : Option UContent)
    (parent : ParentRef) :
    Except String (Option YContent × List Token × List (String × YAnchor)) :=
  match c with
  | none => .ok (none, [], [])
  | some node =>
    match convertContentNode ctx code node parent with
    | .error e => .error e
    | .ok (y, t, e) => .ok (some y, t, e)

/-- The `convertSequenceItem` loop of `convertSequence`: an item with an
empty body contributes no entry. -/
def convertSeqItems (ctx : Ctx) (code : List Char) (items : List (Option UContent))
    (parent : ParentRef) :
    Except String (List YContent × List Token × List (String × YAnchor)) :=
  match items with
  | [] => .ok ([], [], [])
  | none :: rest => convertSeqItems ctx code rest parent
  | some c :: rest =>
    match convertContentNode ctx code c parent with
    | .error e => .error e
    | .ok (y, t1, e1) =>
      match convertSeqItems ctx code rest parent with
      | .error e => .error e
      | .ok (ys, t2, e2) => .ok (y :: ys, t1 ++ t2, e1 ++ e2)

/-- The child loop of `convertFlowSequence`: a `flowSequenceItem`
(`Sum.inl`) converts its optional content with the sequence itself as
parent; a `flowMappingItem` (`Sum.inr`) is wrapped into a synthetic
single-pair block-style mapping whose parent is the *sequence's* parent
(`parent`, not `selfRef`). -/
def convertFlowEntries (ctx : Ctx) (code : List Char)
    (entries : List (Option UContent ⊕ UPos × Option UContent × Option UContent))
    (parent selfRef : ParentRef) :
    Except String (List YContent × List Token × List (String × YAnchor)) :=
  match entries with
  | [] => .ok ([], [], [])
  | .inl none :: rest => convertFlowEntries ctx code rest parent selfRef
  | .inl (some c) :: rest =>
    match convertContentNode ctx code c selfRef with
    | .error e => .error e
    | .ok (y, t1, e1) =>
      match convertFlowEntries ctx code rest parent selfRef with
      | .error e => .error e
      | .ok (ys, t2, e2) => .ok (y :: ys, t1 ++ t2, e1 ++ e2)
  | .inr item :: rest =>
    let loc := getConvertLocation item.1
    let mapRef : ParentRef := ⟨"YAMLMapping", loc.range⟩
    match convertMappingItem ctx code item mapRef with
    | .error e => .error e
    | .ok (p, t1, e1) =>
      let m := YContent.mapping "block" [p] none none parent loc.range loc.loc
      match convertFlowEntries ctx code rest parent selfRef with
      | .error e => .error e
      | .ok (ys, t2, e2) => .ok (m :: ys, t1 ++ t2, e1 ++ e2)

end

/-! ## Document-level conversion and markers -/

/-- The marker detection of `convertDocument`/`convertDocumentHead`:
`code[range[1] - 1] === ch` (only the final character of the range is
inspected). -/
def markerCheck (code : List Char) (e : Nat) (ch : Char) : Bool :=
  match e with
  | 0 => false
  | Nat.succ e' => decide (code[e']? = some ch)

/-- The marker token emitted when `markerCheck` holds: it spans the last
3 characters of the range. -/
def markerTokens (code : List Char) (l : Locations) (ch : Char) : List Token :=
  if markerCheck code l.range.2 ch then
    [addToken .Marker
      ⟨(l.range.2 - 3, l.range.2),
       ⟨⟨l.loc.endPos.line, l.loc.endPos.column - 3⟩, l.loc.endPos⟩⟩ code]
  else []

def headMarkerTokens (code : List Char) (head : UHead) : List Token :=
  markerTokens code (getConvertLocation head.pos) '-'

def docMarkerTokens (code : List Char) (pos : UPos) : List Token :=
  markerTokens code (getConvertLocation pos) '.'

/-- `convertDirective`: a single `Directive` token spanning the node. -/
def convertDirective (code : List Char) (pos : UPos) (parent : ParentRef) :
    YDirective × Token :=
  let loc := getConvertLocation pos
  (⟨strSlice code loc.range.1 loc.range.2, parent, loc.range, loc.loc⟩,
   addToken .Directive loc code)

/-- `convertDocumentHead`: the directives in order, then the `---` head
marker when the head range ends in `-`. -/
def convertDocumentHead (code : List Char) (head : UHead) (parent : ParentRef) :
    List YDirective × List Token :=
  let ds := head.directives.map fun p => convertDirective code p parent
  (ds.map fun d => d.1, (ds.map fun d => d.2) ++ headMarkerTokens code head)

/-- `convertDocument`: head (directives + head marker), body, then the
`...` document marker when the document range ends in `.`; the anchors
registry is the fold of the body's registration events in traversal
order. -/
def convertDocument (ctx : Ctx) (code : List Char) (d : UDocument) :
    Except String (YDocument × List Token) :=
  let loc := getConvertLocation d.pos
  let docRef : ParentRef := ⟨"YAMLDocument", loc.range⟩
  let hd := convertDocumentHead code d.head docRef
  match convertOptContent ctx code d.body docRef with
  | .error e => .error e
  | .ok (content, bodyToks, evs) =>
    .ok (⟨hd.1, content, evs.foldl (fun m ev => anchorSet m ev.1 ev.2) [],
          loc.range, loc.loc⟩,
         hd.2 ++ bodyToks ++ docMarkerTokens code d.pos)

/-- The per-document loop of `convertRoot`, accumulating all walk-time
(phase-1) tokens in document order. -/
def convertDocs (ctx : Ctx) (code : List Char) (docs : List UDocument) :
    Except String (List YDocument × List Token) :=
  match docs with
  | [] => .ok ([], [])
  | d :: rest =>
    match convertDocument ctx code d with
    | .error e => .error e
    | .ok (yd, t1) =>
      match convertDocs ctx code rest with
      | .error e => .error e
      | .ok (yds, t2) => .ok (yd :: yds, t1 ++ t2)

/-! ## Phase 2: the gap-filling scan (spec §4.4) -/

/-- `isPunctuator` of `convertRoot`. -/
def isPunctuator (c : Char) : Bool :=
  c = ':' || c = '-' || c = ',' || c = '{' || c = '}' || c = '[' || c = ']' || c = '?'

/-- The left-to-right scan over the blanked text: newline advances the
line, any other character advances the column, and a remaining
non-whitespace structural character yields a one-character `Punctuator`
token (any other non-whitespace character is skipped).  `full` is the
whole blanked text (for `addToken`'s slice); the scanned argument is its
suffix at `index`. -/
def gapScanAux (full : List Char) : List Char → Nat → Nat → Nat → List Token
  | [], _, _, _ => []
  | c :: rest, index, line, column =>
    if c = '\n' then gapScanAux full rest (index + 1) (line + 1) 0
    else if isWS c then gapScanAux full rest (index + 1) line (column + 1)
    else
      (if isPunctuator c then
        [addToken .Punctuator
          ⟨(index, index + 1), ⟨⟨line, column⟩, ⟨line, column + 1⟩⟩⟩ full]
       else []) ++ gapScanAux full rest (index + 1) line (column + 1)

def gapScan (text : List Char) : List Token := gapScanAux text text 0 1 0

/-! ## `convertRoot` -/

/-- The sort comparator `(a, b) => a.range[0] - b.range[0]` (a stable
ascending sort by start offset). -/
def tokenLE (a b : Token) : Prop := a.range.1 ≤ b.range.1

instance : DecidableRel tokenLE := fun _ _ => Nat.decLe _ _

instance : IsTotal Token tokenLE := ⟨fun _ _ => Nat.le_total _ _⟩

instance : IsTrans Token tokenLE := ⟨fun _ _ _ => Nat.le_trans⟩

/-- The comment objects built by `convertRoot`. -/
def commentList (root : URoot) : List Comment :=
  root.comments.map fun c =>
    ⟨c.value, (getConvertLocation c.pos).range, (getConvertLocation c.pos).loc⟩

/-- The working copy of the source with every comment's range blanked to
whitespace. -/
def stripCommentCodeOf (root : URoot) (code : List Char) : List Char :=
  blankRanges code ((commentList root).map fun c => c.range)

/-- `convertRoot`: extract and blank comments, walk every document over
the comment-blanked code, blank all walk tokens, run the gap-filling
scan, and sort the merged token array by start offset. -/
def convertRoot (ctx : Ctx) (root : URoot) (code : List Char) :
    Except String YProgram :=
  let comments := commentList root
  let stripCommentCode := stripCommentCodeOf root code
  match convertDocs ctx stripCommentCode root.docs with
  | .error e => .error e
  | .ok (body, phase1) =>
    let stripTokensCode := blankRanges stripCommentCode (phase1.map fun t => t.range)
    let tokens := List.insertionSort tokenLE (phase1 ++ gapScan stripTokensCode)
    let loc := getConvertLocation root.pos
    .ok ⟨body, comments, tokens, loc.range, loc.loc⟩

/-- The token array of a conversion result (empty on failure). -/
def progTokens (r : Except String YProgram) : List Token :=
  match r with
  | .ok p => p.tokens
  | .error _ => []

/-! ## Derived views, specification-side definitions and concrete
inputs used by the claim theorems, counterexamples and witnesses -/

/-- The invariant that `addToken` guarantees: `value` is the slice of
the code the token was created against. -/
def tokenOkFor (code : List Char) (t : Token) : Prop :=
  t.value = strSlice code t.range.1 t.range.2

/-- Walk-time (phase-1) tokens of the content tree: well-valued and never
of type `Marker` (markers are emitted only at head/document level). -/
def phase1TokenOk (code : List Char) (t : Token) : Prop :=
  tokenOkFor code t ∧ t.type ≠ .Marker

def isMarkerTok (t : Token) : Bool := decide (t.type = TokenType.Marker)

/-- The phase-1 (walk-time) token list of a conversion, before the
gap-filling scan and the final sort (empty when the walk fails). -/
def phase1TokensOf (ctx : Ctx) (root : URoot) (code : List Char) : List Token :=
  match convertDocs ctx (stripCommentCodeOf root code) root.docs with
  | .error _ => []
  | .ok (_, toks) => toks

/-- The anchor registration events of one document's conversion, in
traversal order (each `convertAnchor` call appends one event). -/
def documentAnchorEvents (ctx : Ctx) (code : List Char) (d : UDocument) :
    Except String (List (String × YAnchor)) :=
  match convertOptContent ctx code d.body
      ⟨"YAMLDocument", (getConvertLocation d.pos).range⟩ with
  | .error e => .error e
  | .ok (_, _, evs) => .ok evs

/-- An opaque-parser instantiation that returns `undefined` everywhere. -/
def ctx0 : Ctx := ⟨fun _ => .undef, fun _ => .undef⟩

def upos (l1 c1 o1 l2 c2 o2 : Nat) : UPos := ⟨⟨l1, c1, o1⟩, ⟨l2, c2, o2⟩⟩

/-- `"#a"` with an upstream tree whose scalar node's range overlaps the
comment's range (an input outside the upstream engine's guarantees). -/
def exC2code : List Char := "#a".data

def exC2root : URoot :=
  { pos := upos 1 1 0 1 3 2
    comments := [⟨upos 1 1 0 1 3 2, "a"⟩]
    docs := [{ pos := upos 1 1 0 1 3 2
               head := ⟨upos 1 1 0 1 1 0, []⟩
               body := some (.plain (upos 1 1 0 1 3 2) none none "#a") }] }

/-- `": #x"`: a comment plus a document stream with no documents. -/
def exW2code : List Char := ": #x".data

def exW2root : URoot :=
  { pos := upos 1 1 0 1 5 4
    comments := [⟨upos 1 3 2 1 5 4, "x"⟩]
    docs := [] }

/-- `"a"` with an upstream tree reporting two block-sequence items at the
same position (an input outside the upstream engine's guarantees). -/
def exC3code : List Char := "a".data

def exC3root : URoot :=
  { pos := upos 1 1 0 1 2 1
    comments := []
    docs := [{ pos := upos 1 1 0 1 2 1
               head := ⟨upos 1 1 0 1 1 0, []⟩
               body := some (.sequence (upos 1 1 0 1 2 1) none none
                 [some (.plain (upos 1 1 0 1 2 1) none none "a"),
                  some (.plain (upos 1 1 0 1 2 1) none none "a")]) }] }

/-- `"k: v"`: one block mapping pair. -/
def exW3code : List Char := "k: v".data

def exW3root : URoot :=
  { pos := upos 1 1 0 1 5 4
    comments := []
    docs := [{ pos := upos 1 1 0 1 5 4
               head := ⟨upos 1 1 0 1 1 0, []⟩
               body := some (.mapping (upos 1 1 0 1 5 4) none none
                 [(upos 1 1 0 1 5 4,
                   some (.plain (upos 1 1 0 1 2 1) none none "k"),
                   some (.plain (upos 1 4 3 1 5 4) none none "v"))]) }] }

/-- The value rule for untagged plain scalars as the spec states it
(§4.2): the exact literal boolean/null forms; otherwise, if the text
matches one of the octal, decimal-integer, hex, special-float,
exponential-float or fixed-point-float forms, the external parser's
result unless that result is falsy, in which case the raw string; any
other text resolves to the raw string itself. -/
def plainScalarValueSpec (ctx : Ctx) (s : String) : JSValue :=
  if isTrue s then .bool true
  else if isFalse s then .bool false
  else if isNull s then .null
  else if needParse s then
    (if (ctx.parse s).isFalsy then .str s else ctx.parse s)
  else .str s

/-- `"- &a x\n- &a y"`: two plain scalars with the same anchor name. -/
def exC6code : List Char := "- &a x\n- &a y".data

def exC6doc : UDocument :=
  { pos := upos 1 1 0 2 7 13
    head := ⟨upos 1 1 0 1 1 0, []⟩
    body := some (.sequence (upos 1 1 0 2 7 13) none none
      [some (.plain (upos 1 6 5 1 7 6) (some ⟨upos 1 3 2 1 5 4, "a"⟩) none "x"),
       some (.plain (upos 2 6 12 2 7 13) (some ⟨upos 2 3 9 2 5 11, "a"⟩) none "y")]) }

/-- `"a: b."`: a document whose range ends in `.` without the literal
`...` sequence. -/
def exC7code : List Char := "a: b.".data

def exC7doc : UDocument :=
  { pos := upos 1 1 0 1 6 5
    head := ⟨upos 1 1 0 1 1 0, []⟩
    body := some (.mapping (upos 1 1 0 1 6 5) none none
      [(upos 1 1 0 1 6 5,
        some (.plain (upos 1 1 0 1 2 1) none none "a"),
        some (.plain (upos 1 4 3 1 6 5) none none "b."))]) }

/-- `"a\n..."` with an empty document body: the genuine `...` marker. -/
def exW7code : List Char := "a\n...".data

def exW7doc : UDocument :=
  { pos := upos 1 1 0 2 4 5
    head := ⟨upos 1 1 0 1 1 0, []⟩
    body := none }

def exW9code : List Char := "[k: v]".data

/-- The `flowMappingItem` child `k: v` of the flow sequence. -/
def exW9item : UPos × Option UContent × Option UContent :=
  (upos 1 2 1 1 6 5,
   some (.plain (upos 1 2 1 1 3 2) none none "k"),
   some (.plain (upos 1 5 4 1 6 5) none none "v"))

def exW9parent : ParentRef := ⟨"YAMLDocument", (0, 6)⟩

def exW9self : ParentRef := ⟨"YAMLSequence", (0, 6)⟩

def exW9out : List YContent × List Token × List (String × YAnchor) :=
  ((convertFlowEntries ctx0 exW9code [Sum.inr exW9item]
    exW9parent exW9self).toOption).getD ([], [], [])

def exW10out : List YContent × List Token × List (String × YAnchor) :=
  ((convertFlowEntries ctx0 exW9code
    [Sum.inl (some (.plain (upos 1 2 1 1 3 2) none none "k"))]
    exW9parent exW9self).toOption).getD ([], [], [])

/-- The opaque parser instantiated for the scenario `n: !!str 123`:
`yaml.parse("123")` yields the number `123`. -/
def ctx123 : Ctx := ⟨fun s => if s = "123" then .num 123 else .undef, fun _ => .undef⟩

def code123 : List Char := "n: !!str 123".data

/-- The upstream tree of `"n: !!str 123"`: a one-pair block mapping whose
value is the plain scalar `123` tagged `!!str` (resolved by the upstream
engine to `tag:yaml.org,2002:str`). -/
def tree123 : URoot :=
  { pos := upos 1 1 0 1 13 12
    comments := []
    docs := [{ pos := upos 1 1 0 1 13 12
               head := ⟨upos 1 1 0 1 1 0, []⟩
               body := some (.mapping (upos 1 1 0 1 13 12) none none
                 [(upos 1 1 0 1 13 12,
                   some (.plain (upos 1 1 0 1 2 1) none none "n"),
                   some (.plain (upos 1 10 9 1 13 12) none
                     (some ⟨upos 1 4 3 1 9 8, "tag:yaml.org,2002:str"⟩) "123"))]) }] }

/-- The resolved value of the first mapping pair's value scalar of a
conversion result. -/
def firstPairScalarValue (r : Except String YProgram) : Option JSValue :=
  match r with
  | .ok p =>
    ((((p.body.head?.bind fun d => d.content).bind fun c =>
        c.mappingPairs).bind fun ps => ps.head?).bind fun pr =>
        pr.pairValue).bind fun v => v.scalarValue
  | .error _ => none

/-! ## Lemmas: slicing and blanking -/

theorem strSlice_getElem? (s : List Char) (a b k : Nat) :
    (strSlice s a b)[k]? = if k < b - a then s[a + k]? else none := by
  simp [strSlice, List.getElem?_take, List.getElem?_drop]

theorem strSlice_eq_of_agree {s s' : List Char} {a b : Nat}
    (h : ∀ i, a ≤ i → i < b → s[i]? = s'[i]?) :
    strSlice s a b = strSlice s' a b := by
  apply List.ext_getElem?
  intro k
  rw [strSlice_getElem?, strSlice_getElem?]
  split
  · exact h (a + k) (Nat.le_add_right _ _) (by omega)
  · rfl

theorem strSlice_singleton {s : List Char} {j : Nat} {c : Char}
    (h : s[j]? = some c) : strSlice s j (j + 1) = [c] := by
  obtain ⟨hj, hc⟩ := List.getElem?_eq_some.mp h
  have h1 : j + 1 - j = 1 := by omega
  rw [strSlice, h1, List.drop_eq_getElem_cons hj, hc]
  rfl

theorem blankChar_blankChar (c : Char) : blankChar (blankChar c) = blankChar c := by
  by_cases h : isWS c
  · simp [blankChar, h]
  · simp [blankChar, h]

theorem blankChar_not_ws {c : Char} (h : isWS (blankChar c) = false) : blankChar c = c := by
  by_cases hc : isWS c
  · simp [blankChar, hc]
  · exfalso
    simp [blankChar, hc] at h
    exact absurd h (by decide)

theorem blankRange_length {t : List Char} {r : Nat × Nat} (h : r.1 ≤ r.2) :
    (blankRange t r).length = t.length := by
  simp [blankRange, strSlice]
  omega

theorem blankRange_getElem? {t : List Char} {r : Nat × Nat} (h : r.1 ≤ r.2) (i : Nat) :
    (blankRange t r)[i]? = if covers r i then (t[i]?).map blankChar else t[i]? := by
  obtain ⟨a, b⟩ := r
  simp only at h
  by_cases hlen : i < t.length
  · simp only [blankRange, strSlice, Nat.sub_zero, List.drop_zero]
    rw [List.getElem?_append, List.getElem?_append]
    simp only [List.length_append, List.length_take, List.length_map, List.length_drop,
      List.getElem?_take, List.getElem?_map, List.getElem?_drop]
    by_cases h1 : i < a
    · rw [if_pos (show i < min a t.length + min (b - a) (t.length - a) by omega),
        if_pos (show i < min a t.length by omega), if_pos h1,
        if_neg (show ¬ covers (a, b) i from fun hc => by
          exact absurd hc.1 (by simpa using by omega))]
    · by_cases h2 : i < b
      · rw [if_pos (show i < min a t.length + min (b - a) (t.length - a) by omega),
          if_neg (show ¬ i < min a t.length by omega),
          if_pos (show i - min a t.length < b - a by omega),
          if_pos (show covers (a, b) i from ⟨by omega, by omega⟩),
          show a + (i - min a t.length) = i by omega]
      · rw [if_neg (show ¬ i < min a t.length + min (b - a) (t.length - a) by omega),
          if_neg (show ¬ covers (a, b) i from fun hc => absurd hc.2 (by simpa using by omega)),
          show b + (i - (min a t.length + min (b - a) (t.length - a))) = i by omega]
  · have hnone : t[i]? = none := List.getElem?_eq_none (by omega)
    have hlen2 : (blankRange t (a, b)).length = t.length := blankRange_length h
    have hnone2 : (blankRange t (a, b))[i]? = none := List.getElem?_eq_none (by omega)
    rw [hnone2, hnone]
    split <;> rfl

theorem blankRanges_length {t : List Char} {rs : List (Nat × Nat)}
    (hwf : ∀ r ∈ rs, r.1 ≤ r.2) : (blankRanges t rs).length = t.length := by
  induction rs generalizing t with
  | nil => rfl
  | cons r rs ih =>
    calc (blankRanges t (r :: rs)).length = (blankRanges (blankRange t r) rs).length := rfl
      _ = (blankRange t r).length := ih fun r' hr => hwf r' (.tail _ hr)
      _ = t.length := blankRange_length (hwf r (.head _))

theorem blankRanges_getElem?_not_covered {t : List Char} {rs : List (Nat × Nat)}
    (hwf : ∀ r ∈ rs, r.1 ≤ r.2) {i : Nat} (h : ∀ r ∈ rs, ¬ covers r i) :
    (blankRanges t rs)[i]? = t[i]? := by
  induction rs generalizing t with
  | nil => rfl
  | cons r rs ih =>
    calc (blankRanges t (r :: rs))[i]? = (blankRanges (blankRange t r) rs)[i]? := rfl
      _ = (blankRange t r)[i]? :=
        ih (fun r' hr => hwf r' (.tail _ hr)) (fun r' hr => h r' (.tail _ hr))
      _ = t[i]? := by
        rw [blankRange_getElem? (hwf r (.head _)) i, if_neg (h r (.head _))]

theorem blankRanges_getElem?_covered {t : List Char} {rs : List (Nat × Nat)}
    (hwf : ∀ r ∈ rs, r.1 ≤ r.2) {i : Nat} (h : ∃ r ∈ rs, covers r i) :
    (blankRanges t rs)[i]? = (t[i]?).map blankChar := by
  induction rs generalizing t with
  | nil => simp at h
  | cons r rs ih =>
    have step : blankRanges t (r :: rs) = blankRanges (blankRange t r) rs := rfl
    by_cases hrs : ∃ r' ∈ rs, covers r' i
    · rw [step, ih (fun r' hr => hwf r' (.tail _ hr)) hrs,
        blankRange_getElem? (hwf r (.head _)) i]
      split
      · rw [Option.map_map]
        cases t[i]? with
        | none => rfl
        | some c => simp [Function.comp, blankChar_blankChar]
      · rfl
    · have hr : covers r i := by
        rcases h with ⟨r', hr', hc⟩
        rcases List.mem_cons.mp hr' with h1 | h1
        · exact h1 ▸ hc
        · exact absurd ⟨r', h1, hc⟩ hrs
      have hnot : ∀ r' ∈ rs, ¬ covers r' i := by
        intro r' hr' hc
        exact hrs ⟨r', hr', hc⟩
      rw [step, blankRanges_getElem?_not_covered (fun r' h' => hwf r' (.tail _ h')) hnot,
        blankRange_getElem? (hwf r (.head _)) i, if_pos hr]

/-- A non-whitespace character surviving the blanking pass was present
unchanged in the original text, at an offset outside every blanked range. -/
theorem blankRanges_nonWS {t : List Char} {rs : List (Nat × Nat)} {i : Nat} {c : Char}
    (hwf : ∀ r ∈ rs, r.1 ≤ r.2) (h : (blankRanges t rs)[i]? = some c)
    (hc : isWS c = false) :
    t[i]? = some c ∧ ∀ r ∈ rs, ¬ covers r i := by
  by_cases hcov : ∃ r ∈ rs, covers r i
  · exfalso
    rw [blankRanges_getElem?_covered hwf hcov] at h
    cases ht : t[i]? with
    | none => rw [ht] at h; cases h
    | some c0 =>
      rw [ht] at h
      have hbc : blankChar c0 = c := by simpa using h
      by_cases h0 : isWS c0
      · rw [show blankChar c0 = c0 by simp [blankChar, h0]] at hbc
        rw [hbc] at h0
        simp [h0] at hc
      · rw [show blankChar c0 = ' ' by simp [blankChar, h0]] at hbc
        rw [← hbc] at hc
        exact absurd hc (by decide)
  · have hnot : ∀ r ∈ rs, ¬ covers r i := fun r hr hc' => hcov ⟨r, hr, hc'⟩
    exact ⟨by rw [← blankRanges_getElem?_not_covered hwf hnot]; exact h, hnot⟩

/-! ## Lemmas: the gap-filling scan -/

/-- Every token of the gap-filling scan is a one-character `Punctuator`
over a surviving non-whitespace structural character, and its value is
the slice of the scanned (blanked) text at its range. -/
theorem gapScanAux_mem {full : List Char} :
    ∀ {rem : List Char} {index line col : Nat}, rem = full.drop index →
      ∀ t ∈ gapScanAux full rem index line col,
        ∃ j c, index ≤ j ∧ full[j]? = some c ∧ isWS c = false ∧
          isPunctuator c = true ∧ t.type = .Punctuator ∧ t.range = (j, j + 1) ∧
          t.value = strSlice full j (j + 1) := by
  intro rem
  induction rem with
  | nil => intro index line col _ t ht; cases ht
  | cons c rest ih =>
    intro index line col hdrop t ht
    have hc : full[index]? = some c := by
      have h0 : (full.drop index)[0]? = some c := by
        rw [← hdrop]; exact List.getElem?_cons_zero
      rwa [List.getElem?_drop, Nat.add_zero] at h0
    have hrest : rest = full.drop (index + 1) := by
      have h1 := congrArg (List.drop 1) hdrop
      simpa [List.drop_drop] using h1
    simp only [gapScanAux] at ht
    split at ht
    · obtain ⟨j, c', hj, rest'⟩ := ih hrest t ht
      exact ⟨j, c', by omega, rest'⟩
    · split at ht
      · obtain ⟨j, c', hj, rest'⟩ := ih hrest t ht
        exact ⟨j, c', by omega, rest'⟩
      · rcases List.mem_append.mp ht with hl | hr
        · next hnl hnws =>
          by_cases hp : isPunctuator c
          · rw [if_pos hp] at hl
            rcases List.mem_singleton.mp hl with rfl
            exact ⟨index, c, Nat.le_refl _, hc, Bool.eq_false_iff.mpr hnws, hp,
              rfl, rfl, rfl⟩
          · rw [if_neg hp] at hl
            cases hl
        · obtain ⟨j, c', hj, rest'⟩ := ih hrest t hr
          exact ⟨j, c', by omega, rest'⟩

/-- Lower bound and shape of the gap-scan tokens' ranges (no text
invariant needed). -/
theorem gapScanAux_range {full : List Char} :
    ∀ {rem : List Char} {index line col : Nat},
      ∀ t ∈ gapScanAux full rem index line col,
        index ≤ t.range.1 ∧ t.range.2 = t.range.1 + 1 := by
  intro rem
  induction rem with
  | nil => intro index line col t ht; cases ht
  | cons c rest ih =>
    intro index line col t ht
    simp only [gapScanAux] at ht
    split at ht
    · have := ih t ht; exact ⟨by omega, this.2⟩
    · split at ht
      · have := ih t ht; exact ⟨by omega, this.2⟩
      · rcases List.mem_append.mp ht with hl | hr
        · by_cases hp : isPunctuator c
          · rw [if_pos hp] at hl
            rcases List.mem_singleton.mp hl with rfl
            exact ⟨Nat.le_refl _, rfl⟩
          · rw [if_neg hp] at hl
            cases hl
        · have := ih t hr; exact ⟨by omega, this.2⟩

/-- The gap-scan tokens appear in strictly increasing, non-overlapping
position order. -/
theorem gapScanAux_pairwise {full : List Char} :
    ∀ {rem : List Char} {index line col : Nat},
      List.Pairwise (fun a b : Token => a.range.2 ≤ b.range.1)
        (gapScanAux full rem index line col) := by
  intro rem
  induction rem with
  | nil => intro index line col; exact List.Pairwise.nil
  | cons c rest ih =>
    intro index line col
    simp only [gapScanAux]
    split
    · exact ih
    · split
      · exact ih
      · rw [List.pairwise_append]
        refine ⟨?_, ih, ?_⟩
        · split
          · exact List.pairwise_singleton _ _
          · exact List.Pairwise.nil
        · intro a ha b hb
          have hb' := gapScanAux_range b hb
          by_cases hp : isPunctuator c
          · rw [if_pos hp] at ha
            rcases List.mem_singleton.mp ha with rfl
            exact hb'.1
          · rw [if_neg hp] at ha
            cases ha

/-! ## Lemmas: token shape discipline of the tree walk -/

theorem tokenOkFor_addToken (ty : TokenType) (l : Locations) (code : List Char) :
    tokenOkFor code (addToken ty l code) := rfl

theorem phase1TokenOk_addToken {ty : TokenType} (l : Locations) (code : List Char)
    (h : ty ≠ TokenType.Marker) : phase1TokenOk code (addToken ty l code) :=
  ⟨rfl, h⟩

theorem classifyToken_ne_Marker (v : JSValue) : classifyToken v ≠ .Marker := by
  unfold classifyToken
  split_ifs <;> decide

theorem convertAnchor_tokens_ok (code : List Char) (node : UNamed) (parent : ParentRef) :
    ∀ t ∈ (convertAnchor code node parent).2.1, phase1TokenOk code t := by
  unfold convertAnchor
  intro t ht
  dsimp only at ht
  split at ht
  · rcases List.mem_cons.mp ht with rfl | ht2
    · exact phase1TokenOk_addToken _ _ (by decide)
    · rcases List.mem_singleton.mp ht2 with rfl
      exact phase1TokenOk_addToken _ _ (by decide)
  · rcases List.mem_singleton.mp ht with rfl
    exact phase1TokenOk_addToken _ _ (by decide)

theorem convertTag_tokens_ok (code : List Char) (node : UNamed) (parent : ParentRef) :
    ∀ t ∈ (convertTag code node parent).2, phase1TokenOk code t := by
  unfold convertTag
  intro t ht
  dsimp only at ht
  split at ht
  · rcases List.mem_cons.mp ht with rfl | ht2
    · exact phase1TokenOk_addToken _ _ (by decide)
    · rcases List.mem_singleton.mp ht2 with rfl
      exact phase1TokenOk_addToken _ _ (by decide)
  · rcases List.mem_singleton.mp ht with rfl
    exact phase1TokenOk_addToken _ _ (by decide)

theorem convertAnchorAndTag_tokens_ok (code : List Char) (anchor tag : Option UNamed)
    (parent : ParentRef) :
    ∀ t ∈ (convertAnchorAndTag code anchor tag parent).2.2.1, phase1TokenOk code t := by
  unfold convertAnchorAndTag
  intro t ht
  dsimp only at ht
  cases anchor with
  | none =>
    cases tag with
    | none => cases ht
    | some tg =>
      simp only [List.nil_append] at ht
      exact convertTag_tokens_ok code tg parent t ht
  | some a =>
    cases tag with
    | none =>
      simp only [List.append_nil] at ht
      exact convertAnchor_tokens_ok code a parent t ht
    | some tg =>
      rcases List.mem_append.mp ht with h | h
      · exact convertAnchor_tokens_ok code a parent t h
      · exact convertTag_tokens_ok code tg parent t h

theorem convertPlain_tokens_ok (ctx : Ctx) (code : List Char) (pos : UPos)
    (anchor tag : Option UNamed) (s : String) (parent : ParentRef) :
    ∀ t ∈ (convertPlain ctx code pos anchor tag s parent).2.1, phase1TokenOk code t := by
  unfold convertPlain
  intro t ht
  dsimp only at ht
  rcases List.mem_append.mp ht with h | h
  · exact convertAnchorAndTag_tokens_ok code anchor tag _ t h
  · rcases List.mem_singleton.mp h with rfl
    exact phase1TokenOk_addToken _ _ (classifyToken_ne_Marker _)

theorem convertQuoteDouble_tokens_ok (ctx : Ctx) (code : List Char) (pos : UPos)
    (anchor tag : Option UNamed) (s : String) (parent : ParentRef) :
    ∀ t ∈ (convertQuoteDouble ctx code pos anchor tag s parent).2.1,
      phase1TokenOk code t := by
  unfold convertQuoteDouble
  intro t ht
  dsimp only at ht
  rcases List.mem_append.mp ht with h | h
  · exact convertAnchorAndTag_tokens_ok code anchor tag _ t h
  · rcases List.mem_singleton.mp h with rfl
    exact phase1TokenOk_addToken _ _ (by decide)

theorem convertQuoteSingle_tokens_ok (ctx : Ctx) (code : List Char) (pos : UPos)
    (anchor tag : Option UNamed) (s : String) (parent : ParentRef) :
    ∀ t ∈ (convertQuoteSingle ctx code pos anchor tag s parent).2.1,
      phase1TokenOk code t := by
  unfold convertQuoteSingle
  intro t ht
  dsimp only at ht
  rcases List.mem_append.mp ht with h | h
  · exact convertAnchorAndTag_tokens_ok code anchor tag _ t h
  · rcases List.mem_singleton.mp h with rfl
    exact phase1TokenOk_addToken _ _ (by decide)

theorem convertBlockScalar_tokens_ok (folded : Bool) (code : List Char) (pos : UPos)
    (anchor tag : Option UNamed) (chomping : String) (indent : Option Nat)
    (s : String) (parent : ParentRef) :
    ∀ t ∈ (convertBlockScalar folded code pos anchor tag chomping indent s parent).2.1,
      phase1TokenOk code t := by
  unfold convertBlockScalar
  intro t ht
  dsimp only at ht
  rcases List.mem_append.mp ht with h | h
  · exact convertAnchorAndTag_tokens_ok code anchor tag _ t h
  · repeat' split at h
    all_goals simp only [List.mem_cons, List.not_mem_nil, or_false] at h
    all_goals obtain rfl | rfl := h
    all_goals exact phase1TokenOk_addToken _ _ (by decide)

theorem convertAlias_tokens_ok (code : List Char) (pos : UPos)
    (anchor tag : Option UNamed) (v : String) (parent : ParentRef) :
    ∀ t ∈ (convertAlias code pos anchor tag v parent).2.1, phase1TokenOk code t := by
  unfold convertAlias
  intro t ht
  dsimp only at ht
  rcases List.mem_append.mp ht with h | h
  · exact convertAnchorAndTag_tokens_ok code anchor tag _ t h
  · repeat' split at h
    all_goals simp only [List.mem_cons, List.not_mem_nil, or_false] at h
    all_goals obtain rfl | rfl := h
    all_goals exact phase1TokenOk_addToken _ _ (by decide)

/-- Every token emitted by the tree walk satisfies the `addToken`
value-slice invariant and is never a `Marker`. -/
theorem convertContentNode_tokens_ok (ctx : Ctx) (code : List Char) :
    ∀ (node : UContent) (parent : ParentRef),
      ∀ res, convertContentNode ctx code node parent = .ok res →
        ∀ t ∈ res.2.1, phase1TokenOk code t := by
  apply convertContentNode.induct ctx code
    (fun node parent => ∀ res,
      convertContentNode ctx code node parent = .ok res →
      ∀ t ∈ res.2.1, phase1TokenOk code t)
    (fun entries parent selfRef => ∀ res,
      convertFlowEntries ctx code entries parent selfRef = .ok res →
      ∀ t ∈ res.2.1, phase1TokenOk code t)
    (fun item parent => ∀ res,
      convertMappingItem ctx code item parent = .ok res →
      ∀ t ∈ res.2.1, phase1TokenOk code t)
    (fun c parent => ∀ res,
      convertOptContent ctx code c parent = .ok res →
      ∀ t ∈ res.2.1, phase1TokenOk code t)
    (fun items parent => ∀ res,
      convertSeqItems ctx code items parent = .ok res →
      ∀ t ∈ res.2.1, phase1TokenOk code t)
    (fun items parent => ∀ res,
      convertPairs ctx code items parent = .ok res →
      ∀ t ∈ res.2.1, phase1TokenOk code t) <;>
  · intros
    rename_i res heq t ht
    simp only [convertContentNode, convertPairs, convertMappingItem, convertOptContent,
      convertSeqItems, convertFlowEntries] at heq
    repeat' split at heq
    all_goals first
    | exact Except.noConfusion heq
    | (injection heq with h
       subst h
       try rcases List.mem_append.mp ht with ht | ht
       all_goals first
       | exact absurd ht (List.not_mem_nil t)
       | solve_by_elim [convertPlain_tokens_ok, convertQuoteDouble_tokens_ok,
           convertQuoteSingle_tokens_ok, convertBlockScalar_tokens_ok,
           convertAlias_tokens_ok, convertAnchorAndTag_tokens_ok]
       | (exfalso; simp_all))
    | solve_by_elim

/-! ## Lemmas: document-level tokens and markers -/

theorem convertOptContent_tokens_ok (ctx : Ctx) (code : List Char)
    (c : Option UContent) (parent : ParentRef) (res)
    (h : convertOptContent ctx code c parent = .ok res) :
    ∀ t ∈ res.2.1, phase1TokenOk code t := by
  cases c with
  | none =>
    unfold convertOptContent at h
    injection h with h
    subst h
    intro t ht
    exact absurd ht (List.not_mem_nil t)
  | some node =>
    unfold convertOptContent at h
    split at h
    · exact Except.noConfusion h
    · injection h with h
      subst h
      intro t ht
      next y tl el hcn =>
        exact convertContentNode_tokens_ok ctx code node parent _ hcn t ht

theorem markerTokens_ok (code : List Char) (l : Locations) (ch : Char) :
    ∀ t ∈ markerTokens code l ch, tokenOkFor code t ∧ t.type = .Marker := by
  unfold markerTokens
  split
  · intro t ht
    rcases List.mem_singleton.mp ht with rfl
    exact ⟨rfl, rfl⟩
  · intro t ht
    exact absurd ht (List.not_mem_nil t)

theorem convertDocumentHead_tokens_ok (code : List Char) (head : UHead)
    (parent : ParentRef) :
    ∀ t ∈ (convertDocumentHead code head parent).2, tokenOkFor code t := by
  unfold convertDocumentHead
  intro t ht
  dsimp only at ht
  rcases List.mem_append.mp ht with h | h
  · rw [List.map_map] at h
    rcases List.mem_map.mp h with ⟨p, _, rfl⟩
    exact rfl
  · exact (markerTokens_ok code _ '-' t h).1

theorem convertDocumentHead_marker_filter (code : List Char) (head : UHead)
    (parent : ParentRef) :
    (convertDocumentHead code head parent).2.filter isMarkerTok =
      headMarkerTokens code head := by
  unfold convertDocumentHead
  dsimp only
  rw [List.filter_append]
  rw [List.filter_eq_nil_iff.mpr, List.filter_eq_self.mpr, List.nil_append]
  · intro t ht
    simp [isMarkerTok, (markerTokens_ok code _ '-' t ht).2]
  · intro t ht
    rw [List.map_map] at ht
    rcases List.mem_map.mp ht with ⟨p, _, rfl⟩
    simp [isMarkerTok, convertDirective, addToken]

theorem convertDocument_tokens (ctx : Ctx) (code : List Char) (d : UDocument)
    (yd : YDocument) (toks : List Token)
    (h : convertDocument ctx code d = .ok (yd, toks)) :
    (∀ t ∈ toks, tokenOkFor code t) ∧
      toks.filter isMarkerTok =
        headMarkerTokens code d.head ++ docMarkerTokens code d.pos := by
  unfold convertDocument at h
  dsimp only at h
  split at h
  · exact Except.noConfusion h
  · next content bodyToks evs hbody =>
    injection h with h
    injection h with h1 h2
    subst h2
    constructor
    · intro t ht
      rcases List.mem_append.mp ht with h | h
      · rcases List.mem_append.mp h with h | h
        · exact convertDocumentHead_tokens_ok code d.head _ t h
        · exact (convertOptContent_tokens_ok ctx code d.body _ _ hbody t h).1
      · exact (markerTokens_ok code _ '.' t h).1
    · rw [List.filter_append, List.filter_append]
      rw [convertDocumentHead_marker_filter]
      rw [List.filter_eq_nil_iff.mpr, List.filter_eq_self.mpr, List.append_nil]
      · intro t ht
        simp [isMarkerTok, (markerTokens_ok code _ '.' t ht).2]
      · intro t ht
        have := (convertOptContent_tokens_ok ctx code d.body _ _ hbody t ht).2
        simp [isMarkerTok, this]

theorem convertDocs_tokens_ok (ctx : Ctx) (code : List Char) :
    ∀ (docs : List UDocument) res, convertDocs ctx code docs = .ok res →
      ∀ t ∈ res.2, tokenOkFor code t := by
  intro docs
  induction docs with
  | nil =>
    intro res h t ht
    unfold convertDocs at h
    injection h with h
    subst h
    exact absurd ht (List.not_mem_nil t)
  | cons d rest ih =>
    intro res h t ht
    unfold convertDocs at h
    split at h
    · exact Except.noConfusion h
    · next yd t1 hdoc =>
      split at h
      · exact Except.noConfusion h
      · next yds t2 hrest =>
        injection h with h
        subst h
        rcases List.mem_append.mp ht with h | h
        · exact (convertDocument_tokens ctx code d yd t1 hdoc).1 t h
        · exact ih _ hrest t h

/-! ## Lemmas: `convertRoot`'s final token array -/

theorem convertRoot_ok_tokens {ctx : Ctx} {root : URoot} {code : List Char}
    {prog : YProgram} {body : List YDocument} {phase1 : List Token}
    (hdocs : convertDocs ctx (stripCommentCodeOf root code) root.docs = .ok (body, phase1))
    (hok : convertRoot ctx root code = .ok prog) :
    prog.tokens =
      List.insertionSort tokenLE
        (phase1 ++
          gapScan (blankRanges (stripCommentCodeOf root code)
            (phase1.map fun t => t.range))) := by
  unfold convertRoot at hok
  dsimp only at hok
  rw [hdocs] at hok
  injection hok with hok
  subst hok
  rfl

/-- Membership in the final, sorted token array is membership in the
merged phase-1/phase-2 list. -/
theorem convertRoot_mem_tokens {ctx : Ctx} {root : URoot} {code : List Char}
    {prog : YProgram} {body : List YDocument} {phase1 : List Token} {t : Token}
    (hdocs : convertDocs ctx (stripCommentCodeOf root code) root.docs = .ok (body, phase1))
    (hok : convertRoot ctx root code = .ok prog) (ht : t ∈ prog.tokens) :
    t ∈ phase1 ∨
      t ∈ gapScan (blankRanges (stripCommentCodeOf root code)
        (phase1.map fun tk => tk.range)) := by
  rw [convertRoot_ok_tokens hdocs hok] at ht
  exact List.mem_append.mp ((List.perm_insertionSort tokenLE _).subset ht)

/-! ## Lemmas: the anchor registry (last definition wins) -/

theorem anchorGet_cons (x : String × YAnchor) (l : List (String × YAnchor)) (k : String) :
    anchorGet (x :: l) k = if x.1 = k then some x.2 else anchorGet l k := by
  unfold anchorGet
  rw [List.find?_cons]
  by_cases h : x.1 = k
  · simp [h]
  · simp [h]

theorem anchorGet_map_ne {ps : List (String × YAnchor)} {a k : String} {v : YAnchor}
    (hne : a ≠ k) :
    anchorGet (ps.map fun p => if p.1 = a then (a, v) else p) k = anchorGet ps k := by
  induction ps with
  | nil => rfl
  | cons p ps ih =>
    rw [List.map_cons, anchorGet_cons, anchorGet_cons]
    by_cases hp : p.1 = a
    · rw [if_pos hp]
      rw [show ((a, v) : String × YAnchor).1 = a from rfl]
      rw [if_neg hne, if_neg (hp ▸ hne), ih]
    · rw [if_neg hp]
      by_cases hk : p.1 = k
      · rw [if_pos hk, if_pos hk]
      · rw [if_neg hk, if_neg hk, ih]

theorem anchorGet_anchorSet (m : List (String × YAnchor)) (a : String) (v : YAnchor)
    (k : String) :
    anchorGet (anchorSet m a v) k = if a = k then some v else anchorGet m k := by
  induction m with
  | nil =>
    by_cases h : a = k <;> simp [anchorSet, anchorGet, List.find?, h]
  | cons p ps ih =>
    unfold anchorSet
    by_cases hp : p.1 = a
    · rw [if_pos (show ((p :: ps).any fun q => decide (q.1 = a)) = true by
        simp [List.any_cons, hp])]
      rw [List.map_cons, if_pos hp, anchorGet_cons, anchorGet_cons,
        show ((a, v) : String × YAnchor).1 = a from rfl]
      by_cases hak : a = k
      · rw [if_pos hak, if_pos hak]
      · rw [if_neg hak, if_neg hak,
          if_neg (show ¬ p.1 = k from fun hpk => hak (hp.symm.trans hpk))]
        exact anchorGet_map_ne hak
    · by_cases hps : (ps.any fun q => decide (q.1 = a)) = true
      · rw [if_pos (show ((p :: ps).any fun q => decide (q.1 = a)) = true by
          simp [List.any_cons, hps])]
        rw [List.map_cons, if_neg hp, anchorGet_cons, anchorGet_cons]
        by_cases hk : p.1 = k
        · rw [if_pos hk, if_neg (show ¬ a = k from fun hak => hp (hk.trans hak.symm)),
            if_pos hk]
        · rw [if_neg hk, if_neg hk]
          have hset2 : (ps.map fun q => if q.1 = a then (a, v) else q) =
              anchorSet ps a v := by
            unfold anchorSet
            rw [if_pos hps]
          rw [hset2, ih]
      · rw [if_neg (show ¬ ((p :: ps).any fun q => decide (q.1 = a)) = true by
          simp [List.any_cons, hp, hps])]
        rw [List.cons_append, anchorGet_cons, anchorGet_cons]
        by_cases hk : p.1 = k
        · rw [if_pos hk, if_neg (show ¬ a = k from fun hak => hp (hk.trans hak.symm)),
            if_pos hk]
        · rw [if_neg hk, if_neg hk]
          have hset2 : ps ++ [(a, v)] = anchorSet ps a v := by
            unfold anchorSet
            rw [if_neg hps]
          rw [hset2, ih]

theorem anchorGet_foldl (evs : List (String × YAnchor)) (m : List (String × YAnchor))
    (k : String) :
    anchorGet (evs.foldl (fun acc ev => anchorSet acc ev.1 ev.2) m) k =
      ((evs.reverse.find? fun e => decide (e.1 = k)).map fun e => e.2).or
        (anchorGet m k) := by
  induction evs generalizing m with
  | nil => simp
  | cons e evs ih =>
    rw [List.foldl_cons, ih, List.reverse_cons, List.find?_append]
    cases hf : evs.reverse.find? fun e => decide (e.1 = k) with
    | some x => simp [Option.or]
    | none =>
      simp only [Option.or, Option.map]
      rw [anchorGet_anchorSet]
      by_cases he : e.1 = k
      · simp [List.find?, he]
      · simp [List.find?, he]

/-! ## Derived views of a conversion used by the claims -/

/-! ## Concrete inputs used by the scenario theorems, counterexamples and
witnesses -/

/-! ## Claim C2 -/

/-- Counterexample to C2 as universally stated: on an upstream tree whose
scalar range overlaps a comment's range, the emitted token's `value` is
sliced from the comment-blanked working copy and differs from the
original source slice. -/
theorem C2_counterexample :
    ¬ ∀ t ∈ progTokens (convertRoot ctx0 exC2root exC2code),
        t.value = strSlice exC2code t.range.1 t.range.2 := by
  intro h
  exact absurd
    (h ⟨.Identifier, [' ', ' '], (0, 2), ⟨⟨1, 0⟩, ⟨1, 2⟩⟩⟩ (.head _))
    (by decide)

/-- C2, amended: provided every comment range is well-formed, every
phase-1 token range is well-formed, and the phase-1 token ranges are
disjoint from the comment ranges (all guaranteed for trees produced by
the upstream engine), every token of the final array — markers and
phase-2 gap-fill punctuators included, on inputs with comments — has
`value = source.slice(range)`. -/
theorem C2_value_slice (ctx : Ctx) (root : URoot) (code : List Char)
    (hcwf : ∀ c ∈ commentList root, c.range.1 ≤ c.range.2)
    (htwf : ∀ t ∈ phase1TokensOf ctx root code, t.range.1 ≤ t.range.2)
    (hdisj : ∀ t ∈ phase1TokensOf ctx root code, ∀ c ∈ commentList root,
      rangesDisjoint t.range c.range) :
    ∀ t ∈ progTokens (convertRoot ctx root code),
      t.value = strSlice code t.range.1 t.range.2 := by
  intro t ht
  rcases hdocs : convertDocs ctx (stripCommentCodeOf root code) root.docs with e | bp
  · unfold progTokens at ht
    split at ht
    · next prog hok =>
      unfold convertRoot at hok
      dsimp only at hok
      rw [hdocs] at hok
      exact Except.noConfusion hok
    · exact absurd ht (List.not_mem_nil t)
  · obtain ⟨body, phase1⟩ := bp
    have hphase : phase1TokensOf ctx root code = phase1 := by
      unfold phase1TokensOf
      rw [hdocs]
    rw [hphase] at htwf hdisj
    have hcwf' : ∀ r ∈ (commentList root).map (fun c => c.range), r.1 ≤ r.2 := by
      intro r hr
      rcases List.mem_map.mp hr with ⟨c, hc, rfl⟩
      exact hcwf c hc
    have htwf' : ∀ r ∈ phase1.map (fun tk => tk.range), r.1 ≤ r.2 := by
      intro r hr
      rcases List.mem_map.mp hr with ⟨tk, htk, rfl⟩
      exact htwf tk htk
    unfold progTokens at ht
    split at ht
    · next prog hok =>
      rcases convertRoot_mem_tokens hdocs hok ht with h | h
      · have h1 := convertDocs_tokens_ok ctx _ root.docs _ hdocs t h
        rw [show t.value = strSlice (stripCommentCodeOf root code) t.range.1 t.range.2
          from h1]
        apply strSlice_eq_of_agree
        intro i hi1 hi2
        unfold stripCommentCodeOf
        apply blankRanges_getElem?_not_covered hcwf'
        intro r hr' hcov
        rcases List.mem_map.mp hr' with ⟨c, hc, rfl⟩
        have hd := hdisj t h c hc
        rcases hd with hd | hd <;>
        · rcases hcov with ⟨hc1, hc2⟩
          omega
      · unfold gapScan at h
        obtain ⟨j, ch, hj0, hget, hws, hpunct, hty, hrange, hval⟩ :=
          gapScanAux_mem (List.drop_zero _).symm t h
        have h2 := blankRanges_nonWS htwf' hget hws
        have h3 := blankRanges_nonWS hcwf' h2.1 hws
        rw [hval, hrange]
        rw [strSlice_singleton hget, strSlice_singleton h3.1]
    · exact absurd ht (List.not_mem_nil t)

/-- Witness for C2 on the input `": #x"` (a comment plus a document
stream with no documents): the hypotheses hold, and the output's phase-2
`:` punctuator token slices the original source. -/
theorem C2_witness :
    (⟨.Punctuator, [':'], (0, 1), ⟨⟨1, 0⟩, ⟨1, 1⟩⟩⟩ : Token).value =
      strSlice exW2code ((0, 1) : Nat × Nat).1 ((0, 1) : Nat × Nat).2 :=
  C2_value_slice ctx0 exW2root exW2code (by decide) (by decide) (by decide)
    ⟨.Punctuator, [':'], (0, 1), ⟨⟨1, 0⟩, ⟨1, 1⟩⟩⟩ (.head _)

/-! ## Claim C3 -/

/-- Counterexample to C3 as universally stated: an upstream tree
reporting two sequence items at the same position yields two overlapping
`Identifier` tokens in the merged array. -/
theorem C3_counterexample :
    ¬ List.Pairwise
        (fun a b : Token => a.range.1 < b.range.1 ∧ rangesDisjoint a.range b.range)
        (progTokens (convertRoot ctx0 exC3root exC3code)) := by
  intro h
  rw [show progTokens (convertRoot ctx0 exC3root exC3code) =
    [⟨.Identifier, ['a'], (0, 1), ⟨⟨1, 0⟩, ⟨1, 1⟩⟩⟩,
     ⟨.Identifier, ['a'], (0, 1), ⟨⟨1, 0⟩, ⟨1, 1⟩⟩⟩] from rfl] at h
  rcases List.pairwise_cons.mp h with ⟨h1, _⟩
  exact absurd (h1 _ (.head _)).1 (by decide)

/-- C3, amended: provided the phase-1 (walk-time) tokens have nonempty
ranges and are pairwise non-overlapping (guaranteed for trees produced by
the upstream engine), the final merged token array is strictly ordered by
start offset and pairwise non-overlapping. -/
theorem C3_sorted_disjoint (ctx : Ctx) (root : URoot) (code : List Char)
    (hwf : ∀ t ∈ phase1TokensOf ctx root code, t.range.1 < t.range.2)
    (hdisj : List.Pairwise (fun a b => rangesDisjoint a.range b.range)
      (phase1TokensOf ctx root code)) :
    List.Pairwise
      (fun a b => a.range.1 < b.range.1 ∧ rangesDisjoint a.range b.range)
      (progTokens (convertRoot ctx root code)) := by
  rcases hdocs : convertDocs ctx (stripCommentCodeOf root code) root.docs with e | bp
  · unfold progTokens
    split
    · next prog hok =>
      unfold convertRoot at hok
      dsimp only at hok
      rw [hdocs] at hok
      exact Except.noConfusion hok
    · exact List.Pairwise.nil
  · obtain ⟨body, phase1⟩ := bp
    have hphase : phase1TokensOf ctx root code = phase1 := by
      unfold phase1TokensOf
      rw [hdocs]
    rw [hphase] at hwf hdisj
    have htwf' : ∀ r ∈ phase1.map (fun tk => tk.range), r.1 ≤ r.2 := by
      intro r hr
      rcases List.mem_map.mp hr with ⟨tk, htk, rfl⟩
      exact Nat.le_of_lt (hwf tk htk)
    unfold progTokens
    split
    · next prog hok =>
      rw [convertRoot_ok_tokens hdocs hok]
      have hne : ∀ t ∈ phase1 ++
          gapScan (blankRanges (stripCommentCodeOf root code)
            (phase1.map fun tk => tk.range)),
          t.range.1 < t.range.2 := by
        intro t ht
        rcases List.mem_append.mp ht with h | h
        · exact hwf t h
        · unfold gapScan at h
          have := gapScanAux_range t h
          omega
      have hdisjL : List.Pairwise (fun a b => rangesDisjoint a.range b.range)
          (phase1 ++
            gapScan (blankRanges (stripCommentCodeOf root code)
              (phase1.map fun tk => tk.range))) := by
        rw [List.pairwise_append]
        refine ⟨hdisj, ?_, ?_⟩
        · have hp : List.Pairwise (fun a b : Token => a.range.2 ≤ b.range.1)
              (gapScan (blankRanges (stripCommentCodeOf root code)
                (phase1.map fun tk => tk.range))) := by
            unfold gapScan
            exact gapScanAux_pairwise
          exact hp.imp fun h => Or.inl h
        · intro a ha b hb
          unfold gapScan at hb
          obtain ⟨j, c, hj0, hget, hws, hpunct, hty, hrange, hval⟩ :=
            gapScanAux_mem (List.drop_zero _).symm b hb
          have h2 := blankRanges_nonWS htwf' hget hws
          have hnc := h2.2 a.range (List.mem_map.mpr ⟨a, ha, rfl⟩)
          have ha' := hwf a ha
          rw [hrange]
          unfold covers at hnc
          unfold rangesDisjoint
          simp only at hnc ⊢
          omega
      have hsort : List.Sorted tokenLE
          (List.insertionSort tokenLE (phase1 ++
            gapScan (blankRanges (stripCommentCodeOf root code)
              (phase1.map fun tk => tk.range)))) :=
        List.sorted_insertionSort tokenLE _
      have hperm := List.perm_insertionSort tokenLE (phase1 ++
        gapScan (blankRanges (stripCommentCodeOf root code)
          (phase1.map fun tk => tk.range)))
      have hsym : ∀ {x y : Token},
          rangesDisjoint x.range y.range → rangesDisjoint y.range x.range := by
        intro x y h
        rcases h with h | h
        · exact Or.inr h
        · exact Or.inl h
      have hdisjS := (hperm.pairwise_iff hsym).mpr hdisjL
      apply List.Pairwise.imp_of_mem ?_ (hsort.and hdisjS)
      intro a b ha hb hab
      have hna := hne a (hperm.subset ha)
      have hnb := hne b (hperm.subset hb)
      rcases hab with ⟨hle, hd⟩
      refine ⟨?_, hd⟩
      rcases hd with hd | hd
      · exact Nat.lt_of_lt_of_le hna hd
      · exact absurd (Nat.lt_of_lt_of_le hnb (Nat.le_trans hd hle))
          (Nat.lt_irrefl _)
    · exact List.Pairwise.nil

/-- Witness for C3 on the input `"k: v"`: the phase-1 token hypotheses
hold and the final array (`k`, `:`, `v`) is strictly ordered and
non-overlapping. -/
theorem C3_witness :
    List.Pairwise
      (fun a b : Token => a.range.1 < b.range.1 ∧ rangesDisjoint a.range b.range)
      (progTokens (convertRoot ctx0 exW3root exW3code)) :=
  C3_sorted_disjoint ctx0 exW3root exW3code (by decide) (by decide)

/-! ## Claim C4 -/

/-- C4: the resolved `value` of every untagged plain scalar follows the
spec's case analysis, for every opaque-parser instantiation. -/
theorem C4_plain_value (ctx : Ctx) (code : List Char) (pos : UPos)
    (anchor : Option UNamed) (s : String) (parent : ParentRef) :
    (convertPlain ctx code pos anchor none s parent).1.scalarValue =
      some (plainScalarValueSpec ctx s) := rfl

/-! ## Claim C5 -/

/-- C5: an untagged double- or single-quoted scalar's resolved value is
always the already-escape-decoded string content (`JSValue.str`), for
every content `s` — including text matching boolean/null/numeric forms —
and is therefore never re-interpreted as a number, boolean or null. -/
theorem C5_quoted_value (ctx : Ctx) (code : List Char) (pos : UPos)
    (anchor : Option UNamed) (s : String) (parent : ParentRef) :
    (convertQuoteDouble ctx code pos anchor none s parent).1.scalarValue =
        some (.str s) ∧
      (convertQuoteSingle ctx code pos anchor none s parent).1.scalarValue =
        some (.str s) :=
  ⟨rfl, rfl⟩

/-! ## Claim C6 -/

/-- C6: after a document conversion, the anchors registry's entry for
each name is the *last* anchor registration event with that name, in
traversal order (`documentAnchorEvents` lists the `convertAnchor` calls
in the order the walk performs them): a duplicate anchor name silently
overwrites the earlier entry, and no diagnostic exists — the conversion
result is untouched.  The second conjunct shows the duplicate-name input
`"- &a x\n- &a y"` resolving `"a"` to the second anchor node. -/
theorem C6_anchor_last_wins :
    (∀ (ctx : Ctx) (code : List Char) (d : UDocument) (name : String),
      (convertDocument ctx code d).toOption.map
          (fun r => anchorGet r.1.anchors name) =
        (documentAnchorEvents ctx code d).toOption.map
          (fun evs =>
            (evs.reverse.find? fun e => decide (e.1 = name)).map fun e => e.2)) ∧
    (convertDocument ctx0 exC6code exC6doc).toOption.map
        (fun r => anchorGet r.1.anchors "a") =
      some (some ⟨"a", ⟨"YAMLScalar", (12, 13)⟩, (9, 11), ⟨⟨2, 2⟩, ⟨2, 4⟩⟩⟩) := by
  constructor
  · intro ctx code d name
    unfold convertDocument documentAnchorEvents
    dsimp only
    rcases hbody : convertOptContent ctx code d.body
        ⟨"YAMLDocument", (getConvertLocation d.pos).range⟩ with e | cte
    · rfl
    · obtain ⟨content, toks, evs⟩ := cte
      dsimp only [Except.toOption, Option.map]
      rw [anchorGet_foldl]
      rw [show anchorGet [] name = none from rfl, Option.or_none]
      cases List.find? (fun e => decide (e.1 = name)) evs.reverse <;> rfl
  · rfl

/-! ## Claim C7 -/

/-- Counterexample to C7 as stated: on `"a: b."` the document range's
last character is `.` although the literal 3-character `...` sequence
does not end the range, yet a Marker token (spanning `" b."`) is
emitted. -/
theorem C7_counterexample :
    ((convertDocument ctx0 exC7code exC7doc).toOption.map
        fun r => r.2.filter isMarkerTok) =
      some [⟨.Marker, [' ', 'b', '.'], (2, 5), ⟨⟨1, 2⟩, ⟨1, 5⟩⟩⟩] ∧
    strSlice exC7code 2 5 ≠ "...".data :=
  ⟨rfl, by decide⟩

/-- C7, amended: a Marker token is emitted for a document head iff the
*final character* of the head range (in the comment-blanked text) is `-`,
and for a document iff the final character of the document range is `.`
(`markerCheck`/`markerTokens`; the source inspects only `code[end - 1]`,
not the full 3-character sequence); an emitted Marker spans exactly the
last 3 characters of the corresponding range, and no other token of a
document conversion is a Marker. -/
theorem C7_marker_last_char (ctx : Ctx) (code : List Char) (d : UDocument)
    (yd : YDocument) (toks : List Token)
    (h : convertDocument ctx code d = .ok (yd, toks)) :
    toks.filter isMarkerTok =
        headMarkerTokens code d.head ++ docMarkerTokens code d.pos ∧
      ∀ t ∈ toks, t.type = .Marker → t.range = (t.range.2 - 3, t.range.2) := by
  have hmain := convertDocument_tokens ctx code d yd toks h
  refine ⟨hmain.2, ?_⟩
  intro t ht hm
  have hf : t ∈ toks.filter isMarkerTok :=
    List.mem_filter.mpr ⟨ht, by simp [isMarkerTok, hm]⟩
  rw [hmain.2] at hf
  rcases List.mem_append.mp hf with h1 | h1
  · unfold headMarkerTokens markerTokens at h1
    split at h1
    · rcases List.mem_singleton.mp h1 with rfl
      rfl
    · exact absurd h1 (List.not_mem_nil t)
  · unfold docMarkerTokens markerTokens at h1
    split at h1
    · rcases List.mem_singleton.mp h1 with rfl
      rfl
    · exact absurd h1 (List.not_mem_nil t)

/-- Witness for C7 on `"a\n..."`: the single output token is the Marker
spanning the final `...`. -/
theorem C7_witness :
    ([(⟨.Marker, ['.', '.', '.'], (2, 5), ⟨⟨2, 0⟩, ⟨2, 3⟩⟩⟩ : Token)].filter
          isMarkerTok =
        headMarkerTokens exW7code exW7doc.head ++
          docMarkerTokens exW7code exW7doc.pos) ∧
      ∀ t ∈ [(⟨.Marker, ['.', '.', '.'], (2, 5), ⟨⟨2, 0⟩, ⟨2, 3⟩⟩⟩ : Token)],
        t.type = .Marker → t.range = (t.range.2 - 3, t.range.2) :=
  C7_marker_last_char ctx0 exW7code exW7doc
    ⟨[], none, [], (0, 5), ⟨⟨1, 0⟩, ⟨2, 3⟩⟩⟩
    [⟨.Marker, ['.', '.', '.'], (2, 5), ⟨⟨2, 0⟩, ⟨2, 3⟩⟩⟩] rfl

/-! ## Shape lemmas for converted content nodes -/

/-- The walker never returns a bare `YAMLPair` as a content node. -/
theorem convertContentNode_not_pair (ctx : Ctx) (code : List Char)
    (node : UContent) (parent : ParentRef) (out)
    (h : convertContentNode ctx code node parent = .ok out) :
    out.1.isPair = false := by
  cases node <;>
    (simp only [convertContentNode] at h
     repeat' split at h
     all_goals first
       | exact Except.noConfusion h
       | (injection h with h
          subst h
          rfl))

/-- Every converted content node records the `parent` argument the walker
received for it. -/
theorem convertContentNode_parent (ctx : Ctx) (code : List Char)
    (node : UContent) (parent : ParentRef) (out)
    (h : convertContentNode ctx code node parent = .ok out) :
    out.1.parentOf = parent := by
  cases node <;>
    (simp only [convertContentNode] at h
     repeat' split at h
     all_goals first
       | exact Except.noConfusion h
       | (injection h with h
          subst h
          rfl))

/-- A converted mapping item is a `YAMLPair` with the given parent and
the item's own location. -/
theorem convertMappingItem_shape (ctx : Ctx) (code : List Char)
    (item : UPos × Option UContent × Option UContent) (parent : ParentRef) (out)
    (h : convertMappingItem ctx code item parent = .ok out) :
    ∃ k v, out.1 = YContent.pair k v parent (getConvertLocation item.1).range
      (getConvertLocation item.1).loc := by
  obtain ⟨pos, key, val⟩ := item
  simp only [convertMappingItem] at h
  repeat' split at h
  all_goals first
    | exact Except.noConfusion h
    | (injection h with h
       subst h
       exact ⟨_, _, rfl⟩)

/-- No entry produced by the flow-sequence child loop is a bare pair. -/
theorem convertFlowEntries_no_pair (ctx : Ctx) (code : List Char) :
    ∀ (entries : List (Option UContent ⊕ UPos × Option UContent × Option UContent))
      (p s : ParentRef) (out),
      convertFlowEntries ctx code entries p s = .ok out →
      ∀ y ∈ out.1, y.isPair = false := by
  intro entries
  induction entries with
  | nil =>
    intro p s out h y hy
    simp only [convertFlowEntries] at h
    injection h with h
    subst h
    exact absurd hy (List.not_mem_nil y)
  | cons e rest ih =>
    intro p s out h y hy
    match e with
    | .inl none =>
      simp only [convertFlowEntries] at h
      exact ih p s out h y hy
    | .inl (some c) =>
      simp only [convertFlowEntries] at h
      split at h
      · exact Except.noConfusion h
      · next y1 t1 e1 hcn =>
        split at h
        · exact Except.noConfusion h
        · next ys t2 e2 hrest =>
          injection h with h
          subst h
          rcases List.mem_cons.mp hy with rfl | hy'
          · exact convertContentNode_not_pair ctx code c s _ hcn
          · exact ih p s _ hrest y hy'
    | .inr item =>
      simp only [convertFlowEntries] at h
      split at h
      · exact Except.noConfusion h
      · next p1 t1 e1 hitem =>
        split at h
        · exact Except.noConfusion h
        · next ys t2 e2 hrest =>
          injection h with h
          subst h
          rcases List.mem_cons.mp hy with rfl | hy'
          · rfl
          · exact ih p s _ hrest y hy'

/-! ## Claim C8 -/

/-- C8: dispatch on an upstream node kind outside the table fails
immediately with the `Unsupported node` error (first conjunct), while
scalar conversion is total: every scalar-style node — whatever its tag,
anchor or text, i.e. along every coercion path — converts successfully
instead of raising. -/
theorem C8_dispatch_total (ctx : Ctx) (code : List Char) (parent : ParentRef) :
    (∀ pos kind, convertContentNode ctx code (.other pos kind) parent =
      .error ("Unsupported node: " ++ kind)) ∧
    (∀ pos anchor tag v, ∃ out,
      convertContentNode ctx code (.plain pos anchor tag v) parent = .ok out) ∧
    (∀ pos anchor tag v, ∃ out,
      convertContentNode ctx code (.quoteDouble pos anchor tag v) parent = .ok out) ∧
    (∀ pos anchor tag v, ∃ out,
      convertContentNode ctx code (.quoteSingle pos anchor tag v) parent = .ok out) ∧
    (∀ pos anchor tag ch ind v, ∃ out,
      convertContentNode ctx code (.blockLiteral pos anchor tag ch ind v) parent =
        .ok out) ∧
    (∀ pos anchor tag ch ind v, ∃ out,
      convertContentNode ctx code (.blockFolded pos anchor tag ch ind v) parent =
        .ok out) ∧
    (∀ pos anchor tag v, ∃ out,
      convertContentNode ctx code (.alias pos anchor tag v) parent = .ok out) :=
  ⟨fun _ _ => rfl,
   fun _ _ _ _ => ⟨_, rfl⟩, fun _ _ _ _ => ⟨_, rfl⟩, fun _ _ _ _ => ⟨_, rfl⟩,
   fun _ _ _ _ _ _ => ⟨_, rfl⟩, fun _ _ _ _ _ _ => ⟨_, rfl⟩,
   fun _ _ _ _ => ⟨_, rfl⟩⟩

/-! ## Claim C9 -/

/-- C9: in the flow-sequence child loop, an empty-bodied item contributes
no entry (first and last conjuncts, also for block sequences); a
flow-mapping-style item is wrapped into a synthetic single-pair
block-style mapping entry (second conjunct); and the resulting entries
never contain bare pairs (third conjunct). -/
theorem C9_flow_wrap (ctx : Ctx) (code : List Char) (p s : ParentRef) :
    (∀ rest, convertFlowEntries ctx code (Sum.inl none :: rest) p s =
      convertFlowEntries ctx code rest p s) ∧
    (∀ item rest out,
      convertFlowEntries ctx code (Sum.inr item :: rest) p s = .ok out →
      ∃ pr ys, out.1 = YContent.mapping "block" [pr] none none p
          (getConvertLocation item.1).range (getConvertLocation item.1).loc :: ys ∧
        pr.isPair = true) ∧
    (∀ entries out, convertFlowEntries ctx code entries p s = .ok out →
      ∀ y ∈ out.1, y.isPair = false) ∧
    (∀ rest, convertSeqItems ctx code (none :: rest) s =
      convertSeqItems ctx code rest s) := by
  refine ⟨fun rest => rfl, ?_, ?_, fun rest => rfl⟩
  · intro item rest out h
    simp only [convertFlowEntries] at h
    split at h
    · exact Except.noConfusion h
    · next p1 t1 e1 hitem =>
      split at h
      · exact Except.noConfusion h
      · next ys t2 e2 hrest =>
        injection h with h
        subst h
        obtain ⟨k, v, hkv⟩ := convertMappingItem_shape ctx code item _ _ hitem
        have hkv2 : p1 = YContent.pair k v
            ⟨"YAMLMapping", (getConvertLocation item.1).range⟩
            (getConvertLocation item.1).range (getConvertLocation item.1).loc := hkv
        exact ⟨p1, ys, rfl, by rw [hkv2]; rfl⟩
  · intro entries out h
    exact convertFlowEntries_no_pair ctx code entries p s out h

/-! ## Claim C10 -/

/-- C10: a flow-mapping item directly inside a flow sequence becomes a
synthetic mapping whose `parent` back-reference is the *sequence's own
parent* `p` (the node enclosing the sequence, visible in the mapping
literal of the first conjunct), while the wrapped pair's parent is the
synthetic mapping itself; by contrast, a plain flow-sequence item's
converted entry has the sequence (`s`) as its parent (second
conjunct). -/
theorem C10_flow_parent (ctx : Ctx) (code : List Char) (p s : ParentRef) :
    (∀ item rest out,
      convertFlowEntries ctx code (Sum.inr item :: rest) p s = .ok out →
      ∃ pr ys, out.1 = YContent.mapping "block" [pr] none none p
          (getConvertLocation item.1).range (getConvertLocation item.1).loc :: ys ∧
        pr.parentOf = ⟨"YAMLMapping", (getConvertLocation item.1).range⟩) ∧
    (∀ c rest out,
      convertFlowEntries ctx code (Sum.inl (some c) :: rest) p s = .ok out →
      ∃ y ys, out.1 = y :: ys ∧ y.parentOf = s) := by
  constructor
  · intro item rest out h
    simp only [convertFlowEntries] at h
    split at h
    · exact Except.noConfusion h
    · next p1 t1 e1 hitem =>
      split at h
      · exact Except.noConfusion h
      · next ys t2 e2 hrest =>
        injection h with h
        subst h
        obtain ⟨k, v, hkv⟩ := convertMappingItem_shape ctx code item _ _ hitem
        have hkv2 : p1 = YContent.pair k v
            ⟨"YAMLMapping", (getConvertLocation item.1).range⟩
            (getConvertLocation item.1).range (getConvertLocation item.1).loc := hkv
        exact ⟨p1, ys, rfl, by rw [hkv2]; rfl⟩
  · intro c rest out h
    simp only [convertFlowEntries] at h
    split at h
    · exact Except.noConfusion h
    · next y1 t1 e1 hcn =>
      split at h
      · exact Except.noConfusion h
      · next ys t2 e2 hrest =>
        injection h with h
        subst h
        exact ⟨y1, ys, rfl, convertContentNode_parent ctx code c s _ hcn⟩

/-! ## Witness inputs for C9/C10: the flow sequence `"[k: v]"` -/

/-- Witness for C9 on `"[k: v]"`: the flow-mapping item is wrapped into a
synthetic single-pair block mapping, no bare pair appears among entries,
and empty-bodied items contribute nothing. -/
theorem C9_witness :
    (convertFlowEntries ctx0 exW9code (Sum.inl none :: []) exW9parent exW9self =
      convertFlowEntries ctx0 exW9code [] exW9parent exW9self) ∧
    (∃ pr ys, exW9out.1 = YContent.mapping "block" [pr] none none exW9parent
        (getConvertLocation exW9item.1).range (getConvertLocation exW9item.1).loc
          :: ys ∧
      pr.isPair = true) ∧
    (∀ y ∈ exW9out.1, y.isPair = false) ∧
    (convertSeqItems ctx0 exW9code (none :: []) exW9self =
      convertSeqItems ctx0 exW9code [] exW9self) :=
  ⟨(C9_flow_wrap ctx0 exW9code exW9parent exW9self).1 [],
   (C9_flow_wrap ctx0 exW9code exW9parent exW9self).2.1 exW9item [] exW9out rfl,
   (C9_flow_wrap ctx0 exW9code exW9parent exW9self).2.2.1 [Sum.inr exW9item]
     exW9out rfl,
   (C9_flow_wrap ctx0 exW9code exW9parent exW9self).2.2.2 []⟩

/-- Witness for C10 on `"[k: v]"`: the synthetic mapping's parent is the
sequence's parent, the wrapped pair's parent is the synthetic mapping,
and a plain flow item's entry has the sequence itself as parent. -/
theorem C10_witness :
    (∃ pr ys, exW9out.1 = YContent.mapping "block" [pr] none none exW9parent
        (getConvertLocation exW9item.1).range (getConvertLocation exW9item.1).loc
          :: ys ∧
      pr.parentOf = ⟨"YAMLMapping", (getConvertLocation exW9item.1).range⟩) ∧
    (∃ y ys, exW10out.1 = y :: ys ∧ y.parentOf = exW9self) :=
  ⟨(C10_flow_parent ctx0 exW9code exW9parent exW9self).1 exW9item [] exW9out rfl,
   (C10_flow_parent ctx0 exW9code exW9parent exW9self).2
     (.plain (upos 1 2 1 1 3 2) none none "k") [] exW10out rfl⟩

/-! ## Claim C1 -/

/-- C1: the primary token of every plain scalar is typed by the pre-tag
classification `classifyToken (plainTokenValue ctx s)` — the right-hand
side mentions neither the `tag` nor the `anchor` argument, so an explicit
tag override never changes the token type (first conjunct); on the input
`n: !!str 123` the scalar's resolved value is the string `"123"` while
its token is still `Numeric` (remaining conjuncts). -/
theorem C1_pretag_token_type :
    (∀ (ctx : Ctx) (code : List Char) (pos : UPos) (anchor tag : Option UNamed)
        (s : String) (parent : ParentRef),
      ((convertPlain ctx code pos anchor tag s parent).2.1.getLast?).map
          (fun t => t.type) =
        some (classifyToken (plainTokenValue ctx s))) ∧
    firstPairScalarValue (convertRoot ctx123 tree123 code123) =
      some (.str "123") ∧
    (⟨.Numeric, ['1', '2', '3'], (9, 12), ⟨⟨1, 9⟩, ⟨1, 12⟩⟩⟩ : Token) ∈
      progTokens (convertRoot ctx123 tree123 code123) := by
  refine ⟨?_, rfl, ?_⟩
  · intro ctx code pos anchor tag s parent
    unfold convertPlain
    dsimp only
    rw [List.getLast?_concat]
    rfl
  · decide

end YamlEslint
